import Mathlib

/-!
# ProxSize: a verification development for `proxserver.go`

A shallow embedding of the routing and reload logic of the reverse proxy
(`src/proxserver.go`) together with theorems about it.

Modelling conventions.

* Go strings are Lean `String`s; `strings.HasPrefix` and `strings.Split` are
  embedded over the character list of the string.
* A Go `map` is an association list (`GoMap`): lookup returns the first binding
  of a key, assignment replaces every binding of the key, deletion removes every
  binding of the key.
* A Go `int` is a Lean `Int`; the program performs no arithmetic on ports.
* The order in which `range` visits a map is unspecified in Go.  Where a loop
  builds an ordered result out of a map (the route lists in `main`) the order
  is an explicit parameter (`RangeOrder`).
* Effects (`proxyTo`, `http.NotFound`, `stopServer`, `startServer`,
  `startTCPServer`) are recorded as values: a `Response` for the HTTP handler,
  a list of `Event`s for a reload cycle, a list of `ConnEvent`s for a sniffed
  TCP connection.
* Listening sockets are the list of ports held; the calls of a cycle are run
  on it in order (`runTrace`), a bind on a held port being the fatal failure.
-/

namespace ProxSize

/-! ## Strings -/

/-- Go `strings.HasPrefix(s, prefix)`. -/
def HasPrefix (s pre : String) : Bool :=
  pre.data.isPrefixOf s.data

/-- Go `strings.Split(s, sep)` for a one-character separator: the pieces of `s`
between the occurrences of `sep`; never empty. -/
def Split (s : String) (sep : Char) : List String :=
  (s.data.splitOn sep).map String.mk

/-! ## Data model (`proxserver.go` lines 22-48) -/

/-- Go `type RouteEntry struct { Target string; Port int }`. -/
structure RouteEntry where
  Target : String
  Port : Int
  deriving DecidableEq, Repr

/-- Go `type FullRoute struct { Type, Key, Target string }`; the field `Type`
is spelled `Typ`, `Type` being reserved. -/
structure FullRoute where
  Typ : String
  Key : String
  Target : String
  deriving DecidableEq, Repr

/-- What the HTTP handler does with a request: the call
`proxyTo(w, r, target, trim)` or `http.NotFound(w, r)`. -/
inductive Response where
  | proxyTo (target trim : String)
  | notFound
  deriving DecidableEq, Repr

/-! ## The HTTP handler of `startServer` (lines 176-210) -/

/-- The body of the handler registered by `startServer`: the loop
`for _, route := range routes { switch route.Typ { ... } }` followed by
`http.NotFound`.  `host` is the request host after the port has been stripped
(lines 177-180), `path` is `r.URL.Path`. -/
def startServer_handler : List FullRoute → String → String → Response
  | [], _, _ => Response.notFound
  | route :: rest, host, path =>
    if route.Typ = "domain" then
      if host = route.Key then Response.proxyTo route.Target ""
      else startServer_handler rest host path
    else if route.Typ = "subdomain" then
      let parts := Split host '.'
      if parts.length ≥ 2 ∧ parts[0]? = some route.Key then
        Response.proxyTo route.Target ""
      else startServer_handler rest host path
    else if route.Typ = "path" then
      if HasPrefix path route.Key then Response.proxyTo route.Target route.Key
      else startServer_handler rest host path
    else startServer_handler rest host path

/-! ## Go maps -/

/-- A Go `map[κ]β`: its bindings, listed in some order. -/
abbrev GoMap (κ β : Type) := List (κ × β)

/-- Go `v, ok := m[k]`. -/
def GoMap.get? {κ β : Type} [DecidableEq κ] (m : GoMap κ β) (k : κ) : Option β :=
  (m.find? (fun kv => decide (kv.1 = k))).map Prod.snd

/-- Go `m[k] = v`. -/
def GoMap.set {κ β : Type} [DecidableEq κ] (m : GoMap κ β) (k : κ) (v : β) : GoMap κ β :=
  (k, v) :: m.filter (fun kv => decide (kv.1 ≠ k))

/-- Go `delete(m, k)`. -/
def GoMap.delete {κ β : Type} [DecidableEq κ] (m : GoMap κ β) (k : κ) : GoMap κ β :=
  m.filter (fun kv => decide (kv.1 ≠ k))

/-! ## JSON documents and `encoding/json` decoding into `RouteEntry` -/

/-- A parsed JSON value (the content of a `json.RawMessage`).  Numbers are
split into integer literals and literals with a fraction or an exponent. -/
inductive JSON where
  | null
  | bool (b : Bool)
  | int (n : Int)
  | float (literal : String)
  | str (s : String)
  | arr (items : List JSON)
  | obj (fields : List (String × JSON))

/-- Field-name matching of `encoding/json`: case-insensitive on ASCII letters. -/
def foldName (name : String) : String :=
  String.mk (name.data.map Char.toLower)

/-- Decoding one member `name: value` of a JSON object into a `RouteEntry`
(`json:"target"` is a `string`, `json:"port"` a 64-bit `int`).  A `null` leaves
the field as it is, a member with an unknown name is ignored, a value of the
wrong JSON type is an error. -/
def decodeField (entry : RouteEntry) (name : String) (value : JSON) : Option RouteEntry :=
  if foldName name = "target" then
    match value with
    | JSON.str s => some { entry with Target := s }
    | JSON.null => some entry
    | JSON.bool _ => none
    | JSON.int _ => none
    | JSON.float _ => none
    | JSON.arr _ => none
    | JSON.obj _ => none
  else if foldName name = "port" then
    match value with
    | JSON.int n =>
      if -(2 : Int) ^ 63 ≤ n ∧ n < (2 : Int) ^ 63 then some { entry with Port := n } else none
    | JSON.null => some entry
    | JSON.bool _ => none
    | JSON.float _ => none
    | JSON.str _ => none
    | JSON.arr _ => none
    | JSON.obj _ => none
  else some entry

/-- The members of an object, decoded left to right. -/
def decodeFields : List (String × JSON) → RouteEntry → Option RouteEntry
  | [], entry => some entry
  | (name, value) :: rest, entry =>
    match decodeField entry name value with
    | some entry1 => decodeFields rest entry1
    | none => none

/-- Go `json.Unmarshal(v, &entry)` with `var entry RouteEntry`: `none` is a
non-nil error.  An object is decoded member by member, `null` leaves the zero
value, every other JSON value is a type error. -/
def jsonUnmarshalRouteEntry : JSON → Option RouteEntry
  | JSON.obj fields => decodeFields fields { Target := "", Port := 0 }
  | JSON.null => some { Target := "", Port := 0 }
  | JSON.bool _ => none
  | JSON.int _ => none
  | JSON.float _ => none
  | JSON.str _ => none
  | JSON.arr _ => none

/-! ## `loadRules` (lines 302-340) -/

/-- Go `type RawConfig struct`, after the top-level `json.Unmarshal` succeeded. -/
structure RawConfig where
  Path : GoMap String JSON
  Subdomain : GoMap String JSON
  Domain : GoMap String JSON
  TCP : GoMap String JSON
  AllowedPorts : List Int

/-- Go `type ProxyRules struct`. -/
structure ProxyRules where
  Path : GoMap String RouteEntry
  Subdomain : GoMap String RouteEntry
  Domain : GoMap String RouteEntry
  TCP : GoMap String RouteEntry

/-- The closure `parseAndAdd` of `loadRules`: the loop `for k, v := range src`,
visiting `src` in its listed order; returns the final `dst`. -/
def parseAndAdd (src : GoMap String JSON) (dst : GoMap String RouteEntry) :
    GoMap String RouteEntry :=
  src.foldl
    (fun dst kv =>
      match jsonUnmarshalRouteEntry kv.2 with
      | none => dst
      | some entry => if entry.Target ≠ "" then dst.set kv.1 entry else dst)
    dst

/-- Go `loadRules`, from the decoded document on: the four `parseAndAdd` calls
of lines 334-337 and the return of line 339. -/
def loadRules (raw : RawConfig) : ProxyRules × List Int :=
  let resultPath := parseAndAdd raw.Path []
  let resultSubdomain := parseAndAdd raw.Subdomain []
  let resultTCP := parseAndAdd raw.Domain []
  let resultTCP := parseAndAdd raw.TCP resultTCP
  ({ Path := resultPath, Subdomain := resultSubdomain, Domain := [], TCP := resultTCP },
    raw.AllowedPorts)

/-- Go `contains(slice, val)` (lines 341-348). -/
def contains : List Int → Int → Bool
  | [], _ => false
  | item :: rest, val => if item = val then true else contains rest val

/-! ## Listener instances and the reload cycle of `main` (lines 71-128) -/

/-- What a running instance serves: the HTTP handler over a route list
(`startServer`) or the TCP sniffer over a subdomain table (`startTCPServer`). -/
inductive Listener where
  | http (routes : List FullRoute)
  | tcp (subdomains : GoMap String String)
  deriving DecidableEq, Repr

/-- Go `type ServerInstance struct`: the port and what the instance serves. -/
structure ServerInstance where
  port : Int
  server : Listener
  deriving DecidableEq, Repr

/-- The calls a reload cycle makes on listeners, in order. -/
inductive Event where
  | stopServer (inst : ServerInstance)
  | startServer (inst : ServerInstance)
  | startTCPServer (inst : ServerInstance)
  deriving DecidableEq, Repr

/-- Go `startServer(port, routes)`: the instance it returns. -/
def startServer (port : Int) (routes : List FullRoute) : ServerInstance :=
  { port := port, server := Listener.http routes }

/-- Go `startTCPServer(port, subdomains)`: the instance it returns. -/
def startTCPServer (port : Int) (subdomains : GoMap String String) : ServerInstance :=
  { port := port, server := Listener.tcp subdomains }

/-- The order in which the two nested `range` loops of lines 75-89 visit the
map of kinds and, per kind, the map of entries: any rearrangement. -/
structure RangeOrder where
  kinds : List (String × GoMap String RouteEntry) → List (String × GoMap String RouteEntry)
  entries : String → GoMap String RouteEntry → List (String × RouteEntry)
  kinds_perm : ∀ l, (kinds l).Perm l
  entries_perm : ∀ kind m, (entries kind m).Perm m

/-- Visiting every map in its listed order. -/
def RangeOrder.listed : RangeOrder :=
  { kinds := fun l => l, entries := fun _ m => m,
    kinds_perm := fun l => List.Perm.refl l, entries_perm := fun _ m => List.Perm.refl m }

/-- Visiting every map in the reverse of its listed order. -/
def RangeOrder.reversed : RangeOrder :=
  { kinds := fun l => l.reverse, entries := fun _ m => m.reverse,
    kinds_perm := fun l => List.reverse_perm l, entries_perm := fun _ m => List.reverse_perm m }

/-- Go `portMap[port]` on a `map[int][]FullRoute`: the nil slice when absent. -/
def portRoutes (portMap : GoMap Int (List FullRoute)) (port : Int) : List FullRoute :=
  (portMap.get? port).getD []

/-- Lines 82-87: one rule appended to the bucket of its port, `0` first
replaced by `-1`. -/
def addRoute (kind : String) (portMap : GoMap Int (List FullRoute))
    (kv : String × RouteEntry) : GoMap Int (List FullRoute) :=
  let port := if kv.2.Port = 0 then -1 else kv.2.Port
  let route : FullRoute := { Typ := kind, Key := kv.1, Target := kv.2.Target }
  portMap.set port (portRoutes portMap port ++ [route])

/-- Lines 74-89: `portMap`, built by the nested loops over the kinds `path`,
`subdomain`, `domain` and their entries. -/
def buildPortMap (ord : RangeOrder) (rules : ProxyRules) : GoMap Int (List FullRoute) :=
  (ord.kinds [("path", rules.Path), ("subdomain", rules.Subdomain),
      ("domain", rules.Domain)]).foldl
    (fun portMap ke => (ord.entries ke.1 ke.2).foldl (addRoute ke.1) portMap)
    []

/-- Lines 91-96: `tcpSubdomains`. -/
def buildTcpSubdomains (rules : ProxyRules) : GoMap String String :=
  rules.Subdomain.foldl
    (fun tcpSubdomains kv =>
      if HasPrefix kv.2.Target "tcp://" then tcpSubdomains.set kv.1 kv.2.Target
      else tcpSubdomains)
    []

/-- Line 107: `routes := append(portMap[port], portMap[-1]...)`. -/
def routesFor (portMap : GoMap Int (List FullRoute)) (port : Int) : List FullRoute :=
  portRoutes portMap port ++ portRoutes portMap (-1)

/-- The state a reload cycle works on: the `instances` map and the listener
calls made so far. -/
structure State where
  instances : GoMap Int ServerInstance
  trace : List Event
  deriving Repr

/-- Go `stopServer(inst)`, recorded. -/
def stopServer (σ : State) (inst : ServerInstance) : State :=
  { σ with trace := σ.trace ++ [Event.stopServer inst] }

/-- Lines 98-104: the TCP-sniff listener on port 2222. -/
def tcpStep (tcpSubdomains : GoMap String String) (σ : State) : State :=
  if tcpSubdomains.length > 0 then
    let σ1 := match σ.instances.get? 2222 with
      | some inst => stopServer σ inst
      | none => σ
    let inst := startTCPServer 2222 tcpSubdomains
    { instances := σ1.instances.set 2222 inst,
      trace := σ1.trace ++ [Event.startTCPServer inst] }
  else σ

/-- Lines 107-119: the body of `for _, port := range allowedPorts`. -/
def allowedStep (portMap : GoMap Int (List FullRoute)) (σ : State) (port : Int) : State :=
  let routes := routesFor portMap port
  if routes.length = 0 then
    match σ.instances.get? port with
    | some inst => { (stopServer σ inst) with instances := σ.instances.delete port }
    | none => σ
  else
    let σ1 := match σ.instances.get? port with
      | some inst => stopServer σ inst
      | none => σ
    let inst := startServer port routes
    { instances := σ1.instances.set port inst,
      trace := σ1.trace ++ [Event.startServer inst] }

/-- Lines 123-126: the body of `for port, inst := range instances`. -/
def cleanupStep (allowedPorts : List Int) (σ : State) (pi : Int × ServerInstance) : State :=
  if !contains allowedPorts pi.1 && pi.1 != 2222 then
    { (stopServer σ pi.2) with instances := σ.instances.delete pi.1 }
  else σ

/-- One iteration of the loop `for range reloadCh` of `main` (lines 72-127),
from the decoded configuration on: `instances` is the map before the cycle, the
result holds the map after it and the listener calls of the cycle. -/
def reloadCycle (ord : RangeOrder) (raw : RawConfig) (instances : GoMap Int ServerInstance) :
    State :=
  let loaded := loadRules raw
  let rules := loaded.1
  let allowedPorts := loaded.2
  let portMap := buildPortMap ord rules
  let tcpSubdomains := buildTcpSubdomains rules
  let σ1 := tcpStep tcpSubdomains { instances := instances, trace := [] }
  let σ2 := allowedPorts.foldl (allowedStep portMap) σ1
  σ2.instances.foldl (cleanupStep allowedPorts) σ2

/-- The route list a reload hands to the listener of `port`. -/
def reloadRoutes (ord : RangeOrder) (raw : RawConfig) (port : Int) : List FullRoute :=
  routesFor (buildPortMap ord (loadRules raw).1) port

/-! ## Flat view of the route buckets -/

/-- The bucket a rule's port field selects: `-1` for `0`, the port otherwise. -/
def bucket (port : Int) : Int :=
  if port = 0 then -1 else port

/-- The rules of one kind, in the order visited, each with its bucket. -/
def taggedRoutes (kind : String) (entries : List (String × RouteEntry)) :
    List (Int × FullRoute) :=
  entries.map (fun kv => (bucket kv.2.Port, { Typ := kind, Key := kv.1, Target := kv.2.Target }))

/-- Every rule of the three routed kinds, in the order visited, with its bucket. -/
def allTagged (ord : RangeOrder) (rules : ProxyRules) : List (Int × FullRoute) :=
  (ord.kinds [("path", rules.Path), ("subdomain", rules.Subdomain),
      ("domain", rules.Domain)]).flatMap
    (fun ke => taggedRoutes ke.1 (ord.entries ke.1 ke.2))

/-- The routes of bucket `b` among tagged routes, order kept. -/
def bucketOf (l : List (Int × FullRoute)) (b : Int) : List FullRoute :=
  (l.filter (fun pr => decide (pr.1 = b))).map Prod.snd

/-- The loaded mapping of a routed kind. -/
def rulesOfKind (rules : ProxyRules) (kind : String) : GoMap String RouteEntry :=
  if kind = "path" then rules.Path
  else if kind = "subdomain" then rules.Subdomain
  else if kind = "domain" then rules.Domain
  else []

/-- A representation of a map is well formed when no key is bound twice. -/
def NodupKeys {κ β : Type} (m : GoMap κ β) : Prop :=
  (m.map Prod.fst).Nodup

instance instDecidableNodupKeys {κ β : Type} [DecidableEq κ] (m : GoMap κ β) :
    Decidable (NodupKeys m) :=
  inferInstanceAs (Decidable (m.map Prod.fst).Nodup)

/-! ## Specification-side definitions for the rule store -/

/-- An entry that decodes successfully to a `RouteEntry` with a non-empty
target, as the specification words it: the decoded entry, or `none`. -/
def validEntry (v : JSON) : Option RouteEntry :=
  match jsonUnmarshalRouteEntry v with
  | some entry => if entry.Target = "" then none else some entry
  | none => none

/-- The valid entry a section of the document has under key `k`, if any. -/
def validAt (sec : GoMap String JSON) (k : String) : Option RouteEntry :=
  match sec.get? k with
  | some v => validEntry v
  | none => none

/-- A document with the given `path` section and nothing else. -/
def pathOnlyConfig (path : GoMap String JSON) (allowedPorts : List Int) : RawConfig :=
  { Path := path, Subdomain := [], Domain := [], TCP := [], AllowedPorts := allowedPorts }

/-- A sample document: two path rules (one bound to port 8080), a `tcp://`
subdomain rule, a domain rule, a malformed entry, ports 80 and 8080. -/
def sampleConfig : RawConfig :=
  { Path := [("/api", JSON.obj [("target", JSON.str "http://a")]),
             ("/bad", JSON.int 7),
             ("/y", JSON.obj [("target", JSON.str "http://y"), ("port", JSON.int 8080)])],
    Subdomain := [("git", JSON.obj [("target", JSON.str "tcp://127.0.0.1:9418")])],
    Domain := [("a.com", JSON.obj [("target", JSON.str "http://d")])],
    TCP := [("a.com", JSON.obj [("target", JSON.str "tcp://t")])],
    AllowedPorts := [80, 8080] }

/-- A document with two overlapping path rules, `/a` and `/ab`, on port 80. -/
def overlapConfig : RawConfig :=
  pathOnlyConfig
    [("/a", JSON.obj [("target", JSON.str "http://one")]),
     ("/ab", JSON.obj [("target", JSON.str "http://two")])]
    [80]

/-! ## Specification-side definitions for the matcher -/

/-- The path test as the specification words it: `key` is a prefix of `path`
ending at a path-segment boundary (the path ends there, or a `/` follows, or
the key itself ends in `/`). -/
def specSegmentPrefix (key path : String) : Bool :=
  key.data.isPrefixOf path.data &&
    (path.data.length == key.data.length
      || (path.data.drop key.data.length).head? == some '/'
      || key.data.getLast? == some '/')

/-- The first dot-delimited label of a host: everything before the first `.`. -/
def specFirstLabel (host : String) : String :=
  String.mk (host.data.takeWhile (fun c => c != '.'))

/-- The kind-specific test as the specification states it: domain, host equals
key; subdomain, first label equals key; path, key is a prefix of the path. -/
def specKindTest (host path : String) (r : FullRoute) : Bool :=
  (r.Typ == "domain" && host == r.Key)
    || (r.Typ == "subdomain" && specFirstLabel host == r.Key)
    || (r.Typ == "path" && path.data.take r.Key.data.length == r.Key.data)

/-- The kind-specific test with the subdomain case as the code has it: the host
must contain a dot (two labels at least) and its first label equals the key. -/
def specKindTestDotted (host path : String) (r : FullRoute) : Bool :=
  (r.Typ == "domain" && host == r.Key)
    || (r.Typ == "subdomain" && host.data.contains '.' && specFirstLabel host == r.Key)
    || (r.Typ == "path" && path.data.take r.Key.data.length == r.Key.data)

/-- The forwarding action of a matched route: its target, and the key as the
prefix to strip only for a path route. -/
def specAction (r : FullRoute) : Response :=
  Response.proxyTo r.Target (if r.Typ = "path" then r.Key else "")

/-- First match wins: the action of the first route passing `test`, or not-found. -/
def specFirstMatch (test : FullRoute → Bool) (routes : List FullRoute) : Response :=
  match routes.find? test with
  | some r => specAction r
  | none => Response.notFound

/-! ## Listening sockets (lines 165-171, 212-223, 350-380) -/

/-- Whether `stopServer(inst)` closes the listening socket of `inst`.  It calls
`inst.cancel()` and `inst.server.Shutdown(ctx)`.  For an instance made by
`startServer`, `inst.server` is the `http.Server` that listens, and `Shutdown`
closes its listener.  For an instance made by `startTCPServer`, `inst.server`
is a fresh `&http.Server{Addr: addr}` that never listened; the `net.Listener`
opened by `net.Listen` is held by the accept loop only and closed nowhere, and
`cancel` is looked at by that loop only after its next `Accept` returns. -/
def releasesSocket (inst : ServerInstance) : Bool :=
  match inst.server with
  | Listener.http _ => true
  | Listener.tcp _ => false

/-- The effect of one listener call on the set of ports whose listening socket
is held; `none` is a bind failure on a port already held (`log.Fatalf` in
`startServer` and in `startTCPServer`). -/
def applyEvent (bound : List Int) : Event → Option (List Int)
  | Event.stopServer inst =>
    if releasesSocket inst then some (bound.filter (fun q => decide (q ≠ inst.port)))
    else some bound
  | Event.startServer inst =>
    if inst.port ∈ bound then none else some (inst.port :: bound)
  | Event.startTCPServer inst =>
    if inst.port ∈ bound then none else some (inst.port :: bound)

/-- The listener calls of a cycle, run in order from the held ports `bound`. -/
def runTrace : List Event → List Int → Option (List Int)
  | [], bound => some bound
  | e :: rest, bound =>
    match applyEvent bound e with
    | some bound1 => runTrace rest bound1
    | none => none

/-! ## The TCP sniffer (lines 382-431) -/

/-- Go `unicode.IsSpace`, the predicate of `strings.TrimSpace`. -/
def isSpace (c : Char) : Bool :=
  let n := c.toNat
  (9 ≤ n && n ≤ 13) || n == 32 || n == 0x85 || n == 0xA0 || n == 0x1680
    || (0x2000 ≤ n && n ≤ 0x200A) || n == 0x2028 || n == 0x2029 || n == 0x202F
    || n == 0x205F || n == 0x3000

/-- Go `strings.TrimSpace(s)`. -/
def TrimSpace (s : String) : String :=
  String.mk ((s.data.dropWhile isSpace).reverse.dropWhile isSpace).reverse

/-- Go `strings.TrimPrefix(s, prefix)`. -/
def TrimPrefix (s pre : String) : String :=
  if HasPrefix s pre then String.mk (s.data.drop pre.data.length) else s

/-- The pieces of Go `strings.SplitN(s, sep, n)` for a one-character separator
and `n` pieces at most, `acc` holding the current piece reversed. -/
def splitNAux (sep : Char) : Nat → List Char → List Char → List (List Char)
  | 0, _, _ => []
  | 1, rest, acc => [acc.reverse ++ rest]
  | _ + 2, [], acc => [acc.reverse]
  | n + 2, c :: cs, acc =>
    if c = sep then acc.reverse :: splitNAux sep (n + 1) cs []
    else splitNAux sep (n + 2) cs (c :: acc)

/-- Go `strings.SplitN(s, sep, n)` for a one-character separator and `n ≥ 0`. -/
def SplitN (s : String) (sep : Char) (n : Nat) : List String :=
  (splitNAux sep n s.data []).map String.mk

/-- The `dropCR` of `bufio.ScanLines`: one trailing carriage return removed. -/
def dropCR (data : List Char) : List Char :=
  if data.getLast? = some '\r' then data.dropLast else data

/-- The tokens of a `bufio.Scanner` with the default `bufio.ScanLines` over
`data`: each line without its end-of-line marker (a newline, with one optional
carriage return before it); a last line without newline is a token when it is
not empty.  `acc` holds the current line reversed. -/
def scanLinesAux : List Char → List Char → List (List Char)
  | [], acc => if acc = [] then [] else [dropCR acc.reverse]
  | c :: cs, acc =>
    if c = '\n' then dropCR acc.reverse :: scanLinesAux cs []
    else scanLinesAux cs (c :: acc)

/-- The successive values of `scanner.Text()` over the buffer `data`. -/
def scanLines (data : String) : List String :=
  (scanLinesAux data.data []).map String.mk

/-- The loop `for scanner.Scan()` of `extractHostnameFromData` (lines 420-428)
over the remaining lines; the result is the value returned (`""` after the
loop ends or breaks). -/
def scanForHost : List String → String
  | [] => ""
  | line :: rest =>
    if HasPrefix line "Host:" then TrimSpace (TrimPrefix line "Host:")
    else if line = "" then ""
    else scanForHost rest

/-- Go `extractHostnameFromData(data, remoteAddr)`; `remoteAddr` is unused by
the function and left out. -/
def extractHostnameFromData (data : String) : String :=
  if HasPrefix data "GET " || HasPrefix data "POST " then scanForHost (scanLines data)
  else ""

/-- What `handleTCPWithSubdomain` does on a connection, in order. -/
inductive ConnEvent where
  | dial (addr : String)
  | write (data : String)
  | copyBothWays
  | closeClient
  deriving DecidableEq, Repr

/-- Go `handleTCPWithSubdomain(client, subdomains)`.  `read` is the outcome of
`client.Read(buffer)` (`none` for an error, else `buffer[:n]`), `dialOk` tells
whether `net.Dial` to an address succeeds.  The deferred `client.Close()` ends
every path. -/
def handleTCPWithSubdomain (dialOk : String → Bool) (read : Option String)
    (subdomains : GoMap String String) : List ConnEvent :=
  match read with
  | none => [ConnEvent.closeClient]
  | some buffer =>
    let host := extractHostnameFromData buffer
    if host = "" then [ConnEvent.closeClient]
    else
      let sub := (SplitN host '.' 2).headD ""
      match subdomains.get? sub with
      | some target =>
        let targetAddr := TrimPrefix target "tcp://"
        if dialOk targetAddr then
          [ConnEvent.dial targetAddr, ConnEvent.write buffer, ConnEvent.copyBothWays,
            ConnEvent.closeClient]
        else [ConnEvent.dial targetAddr, ConnEvent.closeClient]
      | none => [ConnEvent.closeClient]

/-! ## Specification-side definitions for the TCP sniffer -/

/-- The lines of a buffer: its pieces between newlines, each without the
carriage return of a CRLF line end. -/
def specLines (b : String) : List String :=
  (b.data.splitOn '\n').map (fun piece => String.mk (dropCR piece))

/-- The lines of a buffer before its first empty line. -/
def specHeaderLines (b : String) : List String :=
  (specLines b).takeWhile (fun line => line != "")

/-- A line beginning with `Host:`. -/
def specIsHostLine (line : String) : Bool :=
  "Host:".data.isPrefixOf line.data

/-- The trimmed value of a `Host:` line. -/
def specHostValue (line : String) : String :=
  TrimSpace (String.mk (line.data.drop 5))

/-- The buffer begins with `GET ` or `POST `. -/
def specIsRequest (b : String) : Bool :=
  "GET ".data.isPrefixOf b.data || "POST ".data.isPrefixOf b.data

/-- Whether a `Host:` line qualifies for table `S`: its trimmed value is
non-empty and the part of the value before the first `.` is a key of `S`. -/
def specLineQualifies (S : GoMap String String) (line : String) : Bool :=
  specIsHostLine line && specHostValue line != ""
    && (S.get? (specFirstLabel (specHostValue line))).isSome

/-- The dial condition as the specification states it: the buffer begins with
`GET ` or `POST ` and some line before the first empty line qualifies. -/
def specDialCondition (b : String) (S : GoMap String String) : Bool :=
  specIsRequest b && (specHeaderLines b).any (specLineQualifies S)

/-- The address to dial with the first `Host:` line deciding: the buffer
begins with `GET ` or `POST `, the first line beginning with `Host:` before the
first empty line has a non-empty trimmed value, the part of the value before
the first `.` is a key of `S`; the address is the target of that key without
its `tcp://` prefix. -/
def specDialAddr (b : String) (S : GoMap String String) : Option String :=
  if specIsRequest b then
    match (specHeaderLines b).find? specIsHostLine with
    | some line =>
      if specHostValue line = "" then none
      else (S.get? (specFirstLabel (specHostValue line))).map (fun t => TrimPrefix t "tcp://")
    | none => none
  else none

/-- The request of the specification's end-to-end example. -/
def sniffRequest : String :=
  "GET / HTTP/1.1\r\nHost: git.example.com\r\n\r\n"

/-- A request with two `Host:` lines, the second one naming `git`. -/
def twoHostRequest : String :=
  "GET / HTTP/1.1\r\nHost: www.example.com\r\nHost: git.example.com\r\n\r\n"

/-- The subdomain table of the specification's end-to-end example. -/
def sniffTable : GoMap String String :=
  [("git", "tcp://127.0.0.1:9418")]

/-- A document with one `tcp://` subdomain rule and the allowed port 80. -/
def sniffConfig : RawConfig :=
  { Path := [], Subdomain := [("git", JSON.obj [("target", JSON.str "tcp://127.0.0.1:9418")])],
    Domain := [], TCP := [], AllowedPorts := [80] }

/-! ## Specification-side definitions for the port lists -/

/-- Every loaded rule of the three routed kinds, as kind, key and entry. -/
def specLoadedRules (rules : ProxyRules) : List (String × String × RouteEntry) :=
  rules.Path.map (fun kv => ("path", kv.1, kv.2))
    ++ rules.Subdomain.map (fun kv => ("subdomain", kv.1, kv.2))
    ++ rules.Domain.map (fun kv => ("domain", kv.1, kv.2))

/-- The route of a loaded rule: its kind, key and target. -/
def specRoute (t : String × String × RouteEntry) : FullRoute :=
  { Typ := t.1, Key := t.2.1, Target := t.2.2.Target }

/-- The effective rules of port `p` as the specification states them: the
rules with the explicit port `p` plus the rules with no explicit port (port
field `0` or absent). -/
def specEffectiveStated (rules : ProxyRules) (p : Int) : List (String × String × RouteEntry) :=
  (specLoadedRules rules).filter (fun t => decide (t.2.2.Port = p ∨ t.2.2.Port = 0))

/-- The effective rules of port `p` with `-1` counted as "no explicit port"
too: port field `p`, `0` (absent) or `-1`. -/
def specEffectiveRules (rules : ProxyRules) (p : Int) : List (String × String × RouteEntry) :=
  (specLoadedRules rules).filter
    (fun t => decide (t.2.2.Port = p ∨ t.2.2.Port = 0 ∨ t.2.2.Port = -1))

/-- The routes of the rules in the bucket of port `p`: the rules bound to `p`
(port field `p`, not `0`); for the value `-1`, which is no port, the
port-agnostic rules (`0` standing for `-1`). -/
def specBoundRoutes (rules : ProxyRules) (p : Int) : List FullRoute :=
  ((specLoadedRules rules).filter
    (fun t => decide ((t.2.2.Port = p ∧ t.2.2.Port ≠ 0) ∨ (t.2.2.Port = 0 ∧ p = -1)))).map
    specRoute

/-- The routes of the port-agnostic rules: port field `0` (absent) or `-1`. -/
def specAgnosticRoutes (rules : ProxyRules) : List FullRoute :=
  ((specLoadedRules rules).filter
    (fun t => decide (t.2.2.Port = 0 ∨ t.2.2.Port = -1))).map specRoute

/-- An enumeration order that visits the kind `kind` first and, in every
mapping, the key `key` first. -/
def RangeOrder.front (kind key : String) : RangeOrder :=
  { kinds := fun l =>
      l.filter (fun ke => decide (ke.1 = kind)) ++ l.filter (fun ke => !decide (ke.1 = kind)),
    entries := fun _ m =>
      m.filter (fun kv => decide (kv.1 = key)) ++ m.filter (fun kv => !decide (kv.1 = key)),
    kinds_perm := fun l => List.filter_append_perm (fun ke => decide (ke.1 = kind)) l,
    entries_perm := fun _ m => List.filter_append_perm (fun kv => decide (kv.1 = key)) m }

/-- A document whose only rule, the path rule `/x`, has the port field `-1`;
port 80 is allowed. -/
def minusOneConfig : RawConfig :=
  pathOnlyConfig
    [("/x", JSON.obj [("target", JSON.str "http://t"), ("port", JSON.int (-1))])]
    [80]

/-- A document with the path rule `/a` bound to port 80 and the port-agnostic
path rule `/ab`. -/
def boundConfig : RawConfig :=
  pathOnlyConfig
    [("/a", JSON.obj [("target", JSON.str "http://one"), ("port", JSON.int 80)]),
     ("/ab", JSON.obj [("target", JSON.str "http://two")])]
    [80]

/-! ## Lemmas on strings -/

theorem splitOn_length_ge_two (l : List Char) (c : Char) :
    2 ≤ (l.splitOn c).length ↔ c ∈ l := by
  induction l with
  | nil => simp
  | cons x xs ih =>
    have hne := List.splitOnP_ne_nil (fun y => y == c) xs
    simp only [List.splitOn] at ih ⊢
    rw [List.splitOnP_cons]
    by_cases hx : x = c
    · subst hx
      cases hs : List.splitOnP (fun y => y == x) xs with
      | nil => exact absurd hs hne
      | cons a as => simp
    · have hx2 : (x == c) = false := by simpa using hx
      have hc : ¬ c = x := fun h => hx h.symm
      cases hs : List.splitOnP (fun y => y == c) xs with
      | nil => exact absurd hs hne
      | cons a as =>
        rw [hs] at ih
        simp [hx2, hc] at ih ⊢
        exact ih

theorem splitOn_head (l : List Char) (c : Char) :
    (l.splitOn c)[0]? = some (l.takeWhile (fun y => y != c)) := by
  induction l with
  | nil => simp
  | cons x xs ih =>
    have hne := List.splitOnP_ne_nil (fun y => y == c) xs
    simp only [List.splitOn] at ih ⊢
    rw [List.splitOnP_cons]
    by_cases hx : x = c
    · subst hx
      simp [List.takeWhile]
    · have hx2 : (x == c) = false := by simpa using hx
      cases hs : List.splitOnP (fun y => y == c) xs with
      | nil => exact absurd hs hne
      | cons a as =>
        rw [hs] at ih
        have hx3 : (x != c) = true := by simpa using hx
        simp [hx2, List.takeWhile, hx3] at ih ⊢
        exact ih


theorem subdomain_test_iff (host key : String) :
    ((Split host '.').length ≥ 2 ∧ (Split host '.')[0]? = some key) ↔
      ('.' ∈ host.data ∧ specFirstLabel host = key) := by
  unfold Split specFirstLabel
  rw [List.length_map, List.getElem?_map, splitOn_head, ge_iff_le, splitOn_length_ge_two]
  simp

theorem hasPrefix_iff_append (path key : String) :
    HasPrefix path key = true ↔ ∃ rest : String, path = key ++ rest := by
  unfold HasPrefix
  rw [List.isPrefixOf_iff_prefix]
  constructor
  · rintro ⟨t, ht⟩
    exact ⟨String.mk t, String.ext (by simp [String.data_append, ht])⟩
  · rintro ⟨rest, hrest⟩
    exact ⟨rest.data, by rw [hrest, String.data_append]⟩

theorem hasPrefix_iff_take (path key : String) :
    HasPrefix path key = true ↔ path.data.take key.data.length = key.data := by
  unfold HasPrefix
  rw [List.isPrefixOf_iff_prefix, List.prefix_iff_eq_take]
  exact eq_comm

theorem handler_cons (r : FullRoute) (rest : List FullRoute) (host path : String) :
    startServer_handler (r :: rest) host path
      = if specKindTestDotted host path r = true then specAction r
        else startServer_handler rest host path := by
  have hsub := subdomain_test_iff host r.Key
  have hpre := hasPrefix_iff_take path r.Key
  rw [startServer_handler]
  by_cases hd : r.Typ = "domain"
  · by_cases hk : host = r.Key
    · have ht : specKindTestDotted host path r = true := by simp [specKindTestDotted, hd, hk]
      rw [if_pos ht]
      simp [specAction, hd, hk]
    · have ht : specKindTestDotted host path r = false := by simp [specKindTestDotted, hd, hk]
      simp [hd, hk, ht]
  · by_cases hs : r.Typ = "subdomain"
    · by_cases hc : (Split host '.').length ≥ 2 ∧ (Split host '.')[0]? = some r.Key
      · have hc2 := hsub.mp hc
        have ht : specKindTestDotted host path r = true := by
          simp [specKindTestDotted, hs, hc2.1, hc2.2]
        simp only [hs, String.reduceEq, if_false, if_true, hc, and_self, ht, specAction]
      · have hc2 : ¬ ('.' ∈ host.data ∧ specFirstLabel host = r.Key) := fun h => hc (hsub.mpr h)
        have ht : specKindTestDotted host path r = false := by
          simp only [specKindTestDotted, hs]
          simp
          intro h1
          exact fun h2 => hc2 ⟨h1, h2⟩
        simp only [hs, String.reduceEq, if_false, if_true, hc, ht]
        simp
    · by_cases hp : r.Typ = "path"
      · by_cases hh : HasPrefix path r.Key = true
        · have hh2 := hpre.mp hh
          have ht : specKindTestDotted host path r = true := by
            simp only [specKindTestDotted, hp, hh2]
            simp
          simp [specAction, hp, hh, ht]
        · have hh2 : ¬ path.data.take r.Key.data.length = r.Key.data :=
            fun h => hh (hpre.mpr h)
          have ht : specKindTestDotted host path r = false := by
            simp only [specKindTestDotted, hp]
            simp
            exact hh2
          simp [hp, hh, ht]
      · have ht : specKindTestDotted host path r = false := by
          simp [specKindTestDotted, hd, hs, hp]
        simp [hd, hs, hp, ht]

theorem handler_eq_firstMatch (routes : List FullRoute) (host path : String) :
    startServer_handler routes host path
      = specFirstMatch (specKindTestDotted host path) routes := by
  induction routes with
  | nil => rfl
  | cons r rest ih =>
    rw [handler_cons, ih]
    unfold specFirstMatch
    rw [List.find?_cons]
    cases specKindTestDotted host path r <;> simp

theorem handler_single (r : FullRoute) (host path : String) :
    startServer_handler [r] host path
      = if specKindTestDotted host path r = true then specAction r else Response.notFound := by
  rw [handler_cons]
  rfl

theorem handler_single_ne_notFound (r : FullRoute) (host path : String) :
    startServer_handler [r] host path ≠ Response.notFound ↔
      specKindTestDotted host path r = true := by
  rw [handler_single]
  by_cases h : specKindTestDotted host path r = true
  · simp [h, specAction]
  · simp [h]

theorem firstMatch_perm (test : FullRoute → Bool) (l1 l2 : List FullRoute) (h : l1.Perm l2)
    (hagree : ∀ r1 ∈ l1, ∀ r2 ∈ l1, test r1 = true → test r2 = true →
      specAction r1 = specAction r2) :
    specFirstMatch test l1 = specFirstMatch test l2 := by
  unfold specFirstMatch
  cases h1 : l1.find? test with
  | none =>
    cases h2 : l2.find? test with
    | none => rfl
    | some r2 =>
      exfalso
      have hm := h.mem_iff.mpr (List.mem_of_find?_eq_some h2)
      exact (List.find?_eq_none.mp h1) r2 hm (List.find?_some h2)
  | some r1 =>
    cases h2 : l2.find? test with
    | none =>
      exfalso
      have hm := h.mem_iff.mp (List.mem_of_find?_eq_some h1)
      exact (List.find?_eq_none.mp h2) r1 hm (List.find?_some h1)
    | some r2 =>
      exact hagree r1 (List.mem_of_find?_eq_some h1) r2
        (h.mem_iff.mpr (List.mem_of_find?_eq_some h2)) (List.find?_some h1) (List.find?_some h2)

/-! ## The route matcher: path, subdomain, first match (C1 to C3) -/

/-- C1, as the code has it: a path rule with key `key` matches a request path
exactly when the path begins with `key` as a plain string (no path-segment
boundary is required), and a lone path rule answers not-found exactly when it
does not. -/
theorem C1_path_match_is_plain_prefix (key target host path : String) :
    (startServer_handler [⟨"path", key, target⟩] host path = Response.proxyTo target key ↔
        ∃ rest : String, path = key ++ rest) ∧
      (startServer_handler [⟨"path", key, target⟩] host path = Response.notFound ↔
        ¬ ∃ rest : String, path = key ++ rest) := by
  rw [← hasPrefix_iff_append]
  by_cases h : HasPrefix path key = true <;>
    simp [startServer_handler, h]

/-- C1 fails as stated: the path rule `/api` does match the request path
`/apiary`, although `/api` does not end at a path-segment boundary of it. -/
theorem C1_counterexample_apiary :
    startServer_handler [⟨"path", "/api", "http://backend"⟩] "example.com" "/apiary"
        = Response.proxyTo "http://backend" "/api" ∧
      specSegmentPrefix "/api" "/apiary" = false := by
  decide

/-- C2, as the code has it: a subdomain rule with key `key` matches a host
exactly when the host contains a dot (it has two labels at least) and the part
of the host before the first dot equals `key`; a lone subdomain rule answers
not-found exactly when that fails. -/
theorem C2_subdomain_match_needs_dot (key target host path : String) :
    (startServer_handler [⟨"subdomain", key, target⟩] host path = Response.proxyTo target "" ↔
        ('.' ∈ host.data ∧ specFirstLabel host = key)) ∧
      (startServer_handler [⟨"subdomain", key, target⟩] host path = Response.notFound ↔
        ¬ ('.' ∈ host.data ∧ specFirstLabel host = key)) := by
  rw [← subdomain_test_iff]
  by_cases h : (Split host '.').length ≥ 2 ∧ (Split host '.')[0]? = some key
  · simp [startServer_handler, h]
  · have h2 : ¬ (2 ≤ (Split host '.').length ∧ (Split host '.')[0]? = some key) := h
    simp only [startServer_handler, String.reduceEq, if_false, if_true, ge_iff_le, h2, h]
    simp

/-- C2 fails as stated: the first label of the one-label host `admin` equals the
key `admin`, yet the subdomain rule does not match it. -/
theorem C2_counterexample_single_label :
    (Split "admin" '.')[0]? = some "admin" ∧
      startServer_handler [⟨"subdomain", "admin", "http://backend"⟩] "admin" "/"
        = Response.notFound := by
  decide

/-- C3, as the code has it: the handler forwards to the first route in list
order whose test succeeds (domain: host equals key; subdomain: the host has a
dot and its first label equals key; path: key is a prefix of the path), with
the key as the prefix to strip only for a path route, and answers not-found
when no route passes. -/
theorem C3_handler_first_match (routes : List FullRoute) (host path : String) :
    startServer_handler routes host path
      = specFirstMatch (specKindTestDotted host path) routes :=
  handler_eq_firstMatch routes host path

/-- C3 fails as stated: with the subdomain test "first label equals key" the
first matching route of the list forwards the host `admin`, while the handler
answers not-found. -/
theorem C3_counterexample_first_label :
    specFirstMatch (specKindTest "admin" "/") [⟨"subdomain", "admin", "http://backend"⟩]
        = Response.proxyTo "http://backend" "" ∧
      startServer_handler [⟨"subdomain", "admin", "http://backend"⟩] "admin" "/"
        = Response.notFound := by
  decide

/-! ## Lemmas on maps -/

theorem find?_filter_ne {κ β : Type} [DecidableEq κ] (m : GoMap κ β) (k k2 : κ) (h : k2 ≠ k) :
    (m.filter (fun kv => decide (kv.1 ≠ k))).find? (fun kv => decide (kv.1 = k2))
      = m.find? (fun kv => decide (kv.1 = k2)) := by
  rw [List.find?_filter]
  congr 1
  funext kv
  by_cases h2 : kv.1 = k2
  · have : ¬ kv.1 = k := fun e => h (h2.symm.trans e)
    simp [h2, this]
    intro e
    exact absurd e h
  · simp [h2]

theorem find?_filter_self {κ β : Type} [DecidableEq κ] (m : GoMap κ β) (k : κ) :
    (m.filter (fun kv => decide (kv.1 ≠ k))).find? (fun kv => decide (kv.1 = k)) = none := by
  rw [List.find?_eq_none]
  intro kv hkv
  have := (List.mem_filter.mp hkv).2
  simpa using this

theorem get?_set {κ β : Type} [DecidableEq κ] (m : GoMap κ β) (k k2 : κ) (v : β) :
    (m.set k v).get? k2 = if k2 = k then some v else m.get? k2 := by
  unfold GoMap.set GoMap.get?
  by_cases h : k2 = k
  · subst h
    simp [List.find?_cons]
  · have hk : ¬ k = k2 := fun e => h e.symm
    rw [List.find?_cons, find?_filter_ne m k k2 h]
    simp [hk, h]

theorem get?_delete {κ β : Type} [DecidableEq κ] (m : GoMap κ β) (k k2 : κ) :
    (m.delete k).get? k2 = if k2 = k then none else m.get? k2 := by
  unfold GoMap.delete GoMap.get?
  by_cases h : k2 = k
  · subst h
    rw [find?_filter_self]
    simp
  · rw [find?_filter_ne m k k2 h]
    simp [h]

theorem get?_eq_some_mem {κ β : Type} [DecidableEq κ] (m : GoMap κ β) (k : κ) (v : β)
    (h : m.get? k = some v) : (k, v) ∈ m := by
  unfold GoMap.get? at h
  cases hf : m.find? (fun kv => decide (kv.1 = k)) with
  | none => simp [hf] at h
  | some kv =>
    rw [hf] at h
    have h1 := List.find?_some hf
    have h2 := List.mem_of_find?_eq_some hf
    simp at h h1
    have : kv = (k, v) := by rw [← h1, ← h]
    rw [← this]
    exact h2

theorem get?_eq_none_iff {κ β : Type} [DecidableEq κ] (m : GoMap κ β) (k : κ) :
    m.get? k = none ↔ ∀ kv ∈ m, kv.1 ≠ k := by
  unfold GoMap.get?
  simp

theorem nodupKeys_set {κ β : Type} [DecidableEq κ] (m : GoMap κ β) (k : κ) (v : β)
    (h : NodupKeys m) : NodupKeys (m.set k v) := by
  unfold NodupKeys GoMap.set at *
  rw [List.map_cons, List.nodup_cons]
  constructor
  · simp
  · exact (List.Nodup.sublist (List.Sublist.map _ (List.filter_sublist _)) h)

theorem nodupKeys_mem_unique {κ β : Type} (m : GoMap κ β) (k : κ) (v w : β)
    (h : NodupKeys m) (hv : (k, v) ∈ m) (hw : (k, w) ∈ m) : v = w := by
  unfold NodupKeys at h
  induction m with
  | nil => simp at hv
  | cons a as ih =>
    rw [List.map_cons, List.nodup_cons] at h
    rcases List.mem_cons.mp hv with hv1 | hv1 <;> rcases List.mem_cons.mp hw with hw1 | hw1
    · have := hv1.trans hw1.symm
      exact (Prod.mk.inj this).2
    · exfalso
      apply h.1
      rw [← hv1]
      exact List.mem_map.mpr ⟨(k, w), hw1, rfl⟩
    · exfalso
      apply h.1
      rw [← hw1]
      exact List.mem_map.mpr ⟨(k, v), hv1, rfl⟩
    · exact ih h.2 hv1 hw1

theorem nodupKeys_get? {κ β : Type} [DecidableEq κ] (m : GoMap κ β) (k : κ) (v : β)
    (h : NodupKeys m) : m.get? k = some v ↔ (k, v) ∈ m := by
  constructor
  · exact get?_eq_some_mem m k v
  · intro hm
    cases hg : m.get? k with
    | none =>
      exact absurd rfl ((get?_eq_none_iff m k).mp hg (k, v) hm)
    | some w =>
      rw [nodupKeys_mem_unique m k w v h (get?_eq_some_mem m k w hg) hm]

/-! ## Lemmas on the route buckets -/

theorem bucketOf_append (l1 l2 : List (Int × FullRoute)) (b : Int) :
    bucketOf (l1 ++ l2) b = bucketOf l1 b ++ bucketOf l2 b := by
  simp [bucketOf]

theorem mem_bucketOf (l : List (Int × FullRoute)) (b : Int) (r : FullRoute) :
    r ∈ bucketOf l b ↔ (b, r) ∈ l := by
  unfold bucketOf
  constructor
  · intro h
    rcases List.mem_map.mp h with ⟨pr, hpr, rfl⟩
    have h1 := List.mem_filter.mp hpr
    have h2 : pr.1 = b := by simpa using h1.2
    rw [← h2]
    exact h1.1
  · intro h
    exact List.mem_map.mpr ⟨(b, r), List.mem_filter.mpr ⟨h, by simp⟩, rfl⟩

theorem bucketOf_perm {l1 l2 : List (Int × FullRoute)} (h : l1.Perm l2) (b : Int) :
    (bucketOf l1 b).Perm (bucketOf l2 b) :=
  (h.filter _).map _

theorem portRoutes_addRoute (kind : String) (pm : GoMap Int (List FullRoute))
    (kv : String × RouteEntry) (b : Int) :
    portRoutes (addRoute kind pm kv) b
      = portRoutes pm b ++ bucketOf (taggedRoutes kind [kv]) b := by
  have hdef : addRoute kind pm kv
      = pm.set (bucket kv.2.Port)
          (portRoutes pm (bucket kv.2.Port)
            ++ [{ Typ := kind, Key := kv.1, Target := kv.2.Target }]) := rfl
  rw [hdef]
  unfold portRoutes
  rw [get?_set]
  by_cases h : b = bucket kv.2.Port
  · subst h
    simp [bucketOf, taggedRoutes]
  · have h3 : ¬ bucket kv.2.Port = b := fun e => h e.symm
    simp [bucketOf, taggedRoutes, h, h3]

theorem portRoutes_foldl_addRoute (kind : String) (es : List (String × RouteEntry))
    (pm : GoMap Int (List FullRoute)) (b : Int) :
    portRoutes (es.foldl (addRoute kind) pm) b
      = portRoutes pm b ++ bucketOf (taggedRoutes kind es) b := by
  induction es generalizing pm with
  | nil => simp [taggedRoutes, bucketOf]
  | cons e rest ih =>
    rw [List.foldl_cons, ih, portRoutes_addRoute, List.append_assoc, ← bucketOf_append]
    rfl

theorem portRoutes_foldl_kinds (ord : RangeOrder) (kinds : List (String × GoMap String RouteEntry))
    (pm : GoMap Int (List FullRoute)) (b : Int) :
    portRoutes
        (kinds.foldl (fun portMap ke => (ord.entries ke.1 ke.2).foldl (addRoute ke.1) portMap) pm) b
      = portRoutes pm b
          ++ bucketOf (kinds.flatMap (fun ke => taggedRoutes ke.1 (ord.entries ke.1 ke.2))) b := by
  induction kinds generalizing pm with
  | nil => simp [bucketOf]
  | cons ke rest ih =>
    rw [List.foldl_cons, ih, portRoutes_foldl_addRoute, List.append_assoc, ← bucketOf_append]
    rfl

theorem portRoutes_buildPortMap (ord : RangeOrder) (rules : ProxyRules) (b : Int) :
    portRoutes (buildPortMap ord rules) b = bucketOf (allTagged ord rules) b := by
  unfold buildPortMap allTagged
  rw [portRoutes_foldl_kinds]
  simp [portRoutes, GoMap.get?]

theorem mem_allTagged (ord : RangeOrder) (rules : ProxyRules) (b : Int) (r : FullRoute) :
    (b, r) ∈ allTagged ord rules ↔
      ∃ key entry, (key, entry) ∈ rulesOfKind rules r.Typ ∧
        r = { Typ := r.Typ, Key := key, Target := entry.Target } ∧ b = bucket entry.Port := by
  unfold allTagged taggedRoutes
  simp only [List.mem_flatMap, List.mem_map, (ord.kinds_perm _).mem_iff,
    (ord.entries_perm _ _).mem_iff]
  constructor
  · rintro ⟨ke, hke, kv, hkv, heq⟩
    have h1 := (Prod.mk.inj heq).1
    have h2 := (Prod.mk.inj heq).2
    refine ⟨kv.1, kv.2, ?_, ?_, h1.symm⟩
    · simp only [List.mem_cons, List.mem_singleton, List.not_mem_nil, or_false] at hke
      rcases hke with rfl | rfl | rfl <;> (rw [← h2]; simpa [rulesOfKind] using hkv)
    · rw [← h2]
  · rintro ⟨key, entry, hmem, hr, hb⟩
    unfold rulesOfKind at hmem
    by_cases hp : r.Typ = "path"
    · rw [if_pos hp] at hmem
      refine ⟨("path", rules.Path), by simp, (key, entry), hmem, ?_⟩
      rw [hr, hb, hp]
    · rw [if_neg hp] at hmem
      by_cases hs : r.Typ = "subdomain"
      · rw [if_pos hs] at hmem
        refine ⟨("subdomain", rules.Subdomain), by simp, (key, entry), hmem, ?_⟩
        rw [hr, hb, hs]
      · rw [if_neg hs] at hmem
        by_cases hd : r.Typ = "domain"
        · rw [if_pos hd] at hmem
          refine ⟨("domain", rules.Domain), by simp, (key, entry), hmem, ?_⟩
          rw [hr, hb, hd]
        · rw [if_neg hd] at hmem
          simp at hmem

theorem mem_reloadRoutes (ord : RangeOrder) (raw : RawConfig) (port : Int) (r : FullRoute) :
    r ∈ reloadRoutes ord raw port ↔
      ∃ key entry, (key, entry) ∈ rulesOfKind (loadRules raw).1 r.Typ ∧
        r = { Typ := r.Typ, Key := key, Target := entry.Target } ∧
        (bucket entry.Port = port ∨ bucket entry.Port = -1) := by
  unfold reloadRoutes routesFor
  rw [List.mem_append, portRoutes_buildPortMap, portRoutes_buildPortMap, mem_bucketOf,
    mem_bucketOf, mem_allTagged, mem_allTagged]
  constructor
  · rintro (⟨key, entry, h1, h2, h3⟩ | ⟨key, entry, h1, h2, h3⟩)
    · exact ⟨key, entry, h1, h2, Or.inl h3.symm⟩
    · exact ⟨key, entry, h1, h2, Or.inr h3.symm⟩
  · rintro ⟨key, entry, h1, h2, h3 | h3⟩
    · exact Or.inl ⟨key, entry, h1, h2, h3.symm⟩
    · exact Or.inr ⟨key, entry, h1, h2, h3.symm⟩

theorem allTagged_perm_listed (ord : RangeOrder) (rules : ProxyRules) :
    (allTagged ord rules).Perm (allTagged RangeOrder.listed rules) := by
  unfold allTagged
  refine ((ord.kinds_perm _).flatMap_right _).trans ?_
  apply List.Perm.flatMap_left
  intro ke _
  exact (ord.entries_perm ke.1 ke.2).map _

theorem reloadRoutes_perm (ord1 ord2 : RangeOrder) (raw : RawConfig) (port : Int) :
    (reloadRoutes ord1 raw port).Perm (reloadRoutes ord2 raw port) := by
  have h : (allTagged ord1 (loadRules raw).1).Perm (allTagged ord2 (loadRules raw).1) :=
    (allTagged_perm_listed ord1 _).trans (allTagged_perm_listed ord2 _).symm
  unfold reloadRoutes routesFor
  rw [portRoutes_buildPortMap, portRoutes_buildPortMap, portRoutes_buildPortMap,
    portRoutes_buildPortMap]
  exact (bucketOf_perm h port).append (bucketOf_perm h (-1))

/-! ## Lemmas on `loadRules` -/

theorem nodupKeys_parseAndAdd (src : GoMap String JSON) (dst : GoMap String RouteEntry)
    (h : NodupKeys dst) : NodupKeys (parseAndAdd src dst) := by
  unfold parseAndAdd
  induction src generalizing dst with
  | nil => exact h
  | cons kv rest ih =>
    rw [List.foldl_cons]
    apply ih
    cases jsonUnmarshalRouteEntry kv.2 with
    | none => exact h
    | some entry =>
      by_cases ht : entry.Target = ""
      · simpa [ht] using h
      · simpa [ht] using nodupKeys_set dst kv.1 entry h

theorem nodupKeys_rulesOfKind (raw : RawConfig) (kind : String) :
    NodupKeys (rulesOfKind (loadRules raw).1 kind) := by
  have hnil : NodupKeys ([] : GoMap String RouteEntry) := List.nodup_nil
  unfold rulesOfKind loadRules
  simp only
  split_ifs
  · exact nodupKeys_parseAndAdd _ _ hnil
  · exact nodupKeys_parseAndAdd _ _ hnil
  · exact hnil
  · exact hnil

theorem parseAndAdd_cons (kv : String × JSON) (rest : GoMap String JSON)
    (dst : GoMap String RouteEntry) :
    parseAndAdd (kv :: rest) dst
      = parseAndAdd rest
          (match validEntry kv.2 with
            | some entry => dst.set kv.1 entry
            | none => dst) := by
  unfold parseAndAdd validEntry
  rw [List.foldl_cons]
  congr 1
  cases jsonUnmarshalRouteEntry kv.2 with
  | none => rfl
  | some entry =>
    by_cases ht : entry.Target = "" <;> simp [ht]

theorem get?_parseAndAdd (src : GoMap String JSON) (dst : GoMap String RouteEntry)
    (k : String) (h : NodupKeys src) :
    (parseAndAdd src dst).get? k
      = match validAt src k with
        | some entry => some entry
        | none => dst.get? k := by
  induction src generalizing dst with
  | nil => rfl
  | cons kv rest ih =>
    have hnd : kv.1 ∉ rest.map Prod.fst ∧ NodupKeys rest := by
      unfold NodupKeys at h
      rw [List.map_cons, List.nodup_cons] at h
      exact h
    rw [parseAndAdd_cons, ih _ hnd.2]
    by_cases hk : kv.1 = k
    · have hrest : GoMap.get? rest k = none := by
        rw [get?_eq_none_iff]
        intro kv2 hkv2 he
        apply hnd.1
        rw [hk, ← he]
        exact List.mem_map.mpr ⟨kv2, hkv2, rfl⟩
      have h1 : validAt rest k = none := by simp [validAt, hrest]
      have h2 : validAt (kv :: rest) k = validEntry kv.2 := by
        simp [validAt, GoMap.get?, List.find?_cons, hk]
      rw [h1, h2]
      cases validEntry kv.2 with
      | none => rfl
      | some entry => simp [get?_set, hk]
    · have h2 : validAt (kv :: rest) k = validAt rest k := by
        simp [validAt, GoMap.get?, List.find?_cons, hk]
      have hk2 : ¬ k = kv.1 := fun e => hk e.symm
      rw [h2]
      cases validAt rest k with
      | some entry => rfl
      | none =>
        cases validEntry kv.2 with
        | none => rfl
        | some entry => simp [get?_set, hk2]

/-! ## Lemmas on the reload cycle -/

theorem contains_iff (l : List Int) (v : Int) : contains l v = true ↔ v ∈ l := by
  induction l with
  | nil => simp [contains]
  | cons a as ih =>
    unfold contains
    by_cases h : a = v
    · simp [h]
    · have h2 : ¬ v = a := fun e => h e.symm
      simp [h, h2, ih]

theorem tcpStep_get? (t : GoMap String String) (σ : State) (p : Int) (hp : p ≠ 2222) :
    GoMap.get? (tcpStep t σ).instances p = GoMap.get? σ.instances p := by
  unfold tcpStep
  split_ifs
  · cases GoMap.get? σ.instances 2222 <;> simp [stopServer, get?_set, hp]
  · rfl

theorem tcpStep_trace (t : GoMap String String) (σ : State) (e : Event)
    (he : e ∈ σ.trace) : e ∈ (tcpStep t σ).trace := by
  unfold tcpStep
  split_ifs
  · cases GoMap.get? σ.instances 2222 <;> simp [stopServer, he]
  · exact he

theorem allowedStep_empty (pm : GoMap Int (List FullRoute)) (σ : State) (port : Int)
    (hr : routesFor pm port = []) :
    allowedStep pm σ port
      = match GoMap.get? σ.instances port with
        | some inst =>
          { instances := σ.instances.delete port, trace := σ.trace ++ [Event.stopServer inst] }
        | none => σ := by
  have hl : (routesFor pm port).length = 0 := by rw [hr]; rfl
  unfold allowedStep
  simp only [hl, if_true]
  cases GoMap.get? σ.instances port <;> rfl

theorem allowedStep_nonempty (pm : GoMap Int (List FullRoute)) (σ : State) (port : Int)
    (hr : routesFor pm port ≠ []) :
    allowedStep pm σ port
      = { instances := σ.instances.set port (startServer port (routesFor pm port)),
          trace := (match GoMap.get? σ.instances port with
            | some inst => σ.trace ++ [Event.stopServer inst]
            | none => σ.trace) ++ [Event.startServer (startServer port (routesFor pm port))] } := by
  have hl : ¬ (routesFor pm port).length = 0 := fun e => hr (List.length_eq_zero.mp e)
  unfold allowedStep
  simp only [hl, if_false]
  cases GoMap.get? σ.instances port <;> rfl

theorem allowedStep_get? (pm : GoMap Int (List FullRoute)) (σ : State) (port p : Int) :
    GoMap.get? (allowedStep pm σ port).instances p
      = if p = port then
          (if routesFor pm port = [] then none
            else some (startServer port (routesFor pm port)))
        else GoMap.get? σ.instances p := by
  by_cases hr : routesFor pm port = []
  · rw [allowedStep_empty pm σ port hr, if_pos hr]
    cases hg : GoMap.get? σ.instances port with
    | none =>
      by_cases hp : p = port
      · simp [hp, hg]
      · simp [hp]
    | some inst => simp only [get?_delete]
  · rw [allowedStep_nonempty pm σ port hr, if_neg hr]
    simp only [get?_set]

theorem allowedStep_trace (pm : GoMap Int (List FullRoute)) (σ : State) (port : Int) (e : Event)
    (he : e ∈ σ.trace) : e ∈ (allowedStep pm σ port).trace := by
  by_cases hr : routesFor pm port = []
  · rw [allowedStep_empty pm σ port hr]
    cases GoMap.get? σ.instances port <;> simp [he]
  · rw [allowedStep_nonempty pm σ port hr]
    cases GoMap.get? σ.instances port <;> simp [he]

theorem allowedStep_stop (pm : GoMap Int (List FullRoute)) (σ : State) (port : Int)
    (inst : ServerInstance) (hg : GoMap.get? σ.instances port = some inst) :
    Event.stopServer inst ∈ (allowedStep pm σ port).trace := by
  by_cases hr : routesFor pm port = []
  · rw [allowedStep_empty pm σ port hr, hg]
    simp
  · rw [allowedStep_nonempty pm σ port hr, hg]
    simp

theorem allowedStep_start (pm : GoMap Int (List FullRoute)) (σ : State) (port : Int)
    (hr : routesFor pm port ≠ []) :
    Event.startServer (startServer port (routesFor pm port)) ∈ (allowedStep pm σ port).trace := by
  rw [allowedStep_nonempty pm σ port hr]
  simp

theorem allowedFold_get? (pm : GoMap Int (List FullRoute)) (ports : List Int) (σ : State)
    (p : Int) :
    GoMap.get? (ports.foldl (allowedStep pm) σ).instances p
      = if p ∈ ports then
          (if routesFor pm p = [] then none else some (startServer p (routesFor pm p)))
        else GoMap.get? σ.instances p := by
  induction ports generalizing σ with
  | nil => simp
  | cons q qs ih =>
    rw [List.foldl_cons, ih, allowedStep_get?]
    by_cases h1 : p ∈ qs
    · simp [h1]
    · by_cases h2 : p = q
      · subst h2
        simp [h1]
      · simp [h1, h2]

theorem allowedFold_trace (pm : GoMap Int (List FullRoute)) (ports : List Int) (σ : State)
    (e : Event) (he : e ∈ σ.trace) : e ∈ (ports.foldl (allowedStep pm) σ).trace := by
  induction ports generalizing σ with
  | nil => exact he
  | cons q qs ih =>
    rw [List.foldl_cons]
    exact ih _ (allowedStep_trace pm σ q e he)

theorem allowedFold_stop (pm : GoMap Int (List FullRoute)) (ports : List Int) (σ : State)
    (p : Int) (inst : ServerInstance) (hp : p ∈ ports)
    (hg : GoMap.get? σ.instances p = some inst) :
    Event.stopServer inst ∈ (ports.foldl (allowedStep pm) σ).trace := by
  induction ports generalizing σ with
  | nil => simp at hp
  | cons q qs ih =>
    rw [List.foldl_cons]
    by_cases h2 : p = q
    · subst h2
      exact allowedFold_trace pm qs _ _ (allowedStep_stop pm σ p inst hg)
    · have h1 : p ∈ qs := by
        rcases List.mem_cons.mp hp with h | h
        · exact absurd h h2
        · exact h
      apply ih _ h1
      rw [allowedStep_get?, if_neg h2]
      exact hg

theorem allowedFold_start (pm : GoMap Int (List FullRoute)) (ports : List Int) (σ : State)
    (p : Int) (hp : p ∈ ports) (hr : routesFor pm p ≠ []) :
    Event.startServer (startServer p (routesFor pm p))
      ∈ (ports.foldl (allowedStep pm) σ).trace := by
  induction ports generalizing σ with
  | nil => simp at hp
  | cons q qs ih =>
    rw [List.foldl_cons]
    by_cases h2 : p = q
    · subst h2
      exact allowedFold_trace pm qs _ _ (allowedStep_start pm σ p hr)
    · have h1 : p ∈ qs := by
        rcases List.mem_cons.mp hp with h | h
        · exact absurd h h2
        · exact h
      exact ih _ h1

theorem cleanupStep_get? (allowed : List Int) (σ : State) (a : Int × ServerInstance)
    (p : Int) :
    GoMap.get? (cleanupStep allowed σ a).instances p
      = if (!contains allowed a.1 && a.1 != 2222) = true ∧ p = a.1 then none
        else GoMap.get? σ.instances p := by
  unfold cleanupStep
  by_cases h3 : (!contains allowed a.1 && a.1 != 2222) = true
  · rw [if_pos h3]
    simp only [stopServer, get?_delete, h3, true_and]
  · rw [if_neg h3, if_neg (fun h => h3 h.1)]

theorem cleanupFold_get? (allowed : List Int) (l : List (Int × ServerInstance)) (σ : State)
    (p : Int) :
    GoMap.get? (l.foldl (cleanupStep allowed) σ).instances p
      = if (!contains allowed p && p != 2222) = true ∧ p ∈ l.map Prod.fst then none
        else GoMap.get? σ.instances p := by
  induction l generalizing σ with
  | nil => simp
  | cons a as ih =>
    rw [List.foldl_cons, ih, cleanupStep_get?]
    by_cases hc : (!contains allowed p && p != 2222) = true
    · by_cases h1 : p ∈ as.map Prod.fst
      · rw [if_pos ⟨hc, h1⟩, if_pos ⟨hc, by simp only [List.map_cons, List.mem_cons, h1, or_true]⟩]
      · rw [if_neg (fun h => h1 h.2)]
        by_cases h2 : p = a.1
        · have hca : (!contains allowed a.1 && a.1 != 2222) = true := h2 ▸ hc
          rw [if_pos ⟨hca, h2⟩, if_pos ⟨hc, by simp only [List.map_cons, List.mem_cons, h2, true_or]⟩]
        · rw [if_neg (fun h => h2 h.2), if_neg]
          rintro ⟨_, hm⟩
          rcases List.mem_cons.mp hm with h | h
          · exact h2 h
          · exact h1 h
    · have e1 : ¬ ((!contains allowed p && p != 2222) = true ∧ p ∈ as.map Prod.fst) :=
        fun h => hc h.1
      have e2 : ¬ ((!contains allowed p && p != 2222) = true ∧ p ∈ (a :: as).map Prod.fst) :=
        fun h => hc h.1
      have e3 : ¬ ((!contains allowed a.1 && a.1 != 2222) = true ∧ p = a.1) :=
        fun h => hc (h.2 ▸ h.1)
      rw [if_neg e1, if_neg e2, if_neg e3]

theorem cleanupFold_trace (allowed : List Int) (l : List (Int × ServerInstance)) (σ : State)
    (e : Event) (he : e ∈ σ.trace) : e ∈ (l.foldl (cleanupStep allowed) σ).trace := by
  induction l generalizing σ with
  | nil => exact he
  | cons a as ih =>
    rw [List.foldl_cons]
    apply ih
    unfold cleanupStep
    split_ifs
    · simp [stopServer, he]
    · exact he

theorem cleanupFold_stop (allowed : List Int) (l : List (Int × ServerInstance)) (σ : State)
    (p : Int) (inst : ServerInstance) (hmem : (p, inst) ∈ l)
    (hc : (!contains allowed p && p != 2222) = true) :
    Event.stopServer inst ∈ (l.foldl (cleanupStep allowed) σ).trace := by
  induction l generalizing σ with
  | nil => simp at hmem
  | cons a as ih =>
    rw [List.foldl_cons]
    rcases List.mem_cons.mp hmem with h | h
    · apply cleanupFold_trace
      unfold cleanupStep
      rw [← h]
      simp only [hc, if_true, stopServer]
      simp
    · exact ih _ h

theorem cleanup_condition (allowed : List Int) (p : Int) (hp : p ≠ 2222) :
    (!contains allowed p && p != 2222) = true ↔ p ∉ allowed := by
  rw [← contains_iff]
  cases contains allowed p <;> simp [hp]

theorem reconcile_get? (pm : GoMap Int (List FullRoute)) (allowed : List Int) (σ1 : State)
    (p : Int) (hp : p ≠ 2222) :
    GoMap.get?
        (List.foldl (cleanupStep allowed) (allowed.foldl (allowedStep pm) σ1)
          (allowed.foldl (allowedStep pm) σ1).instances).instances p
      = if p ∈ allowed ∧ routesFor pm p ≠ [] then some (startServer p (routesFor pm p))
        else none := by
  have hcond := cleanup_condition allowed p hp
  rw [cleanupFold_get?]
  by_cases hmem : p ∈ allowed
  · have hc : ¬ (!contains allowed p && p != 2222) = true := fun h => hcond.mp h hmem
    have e1 : ¬ ((!contains allowed p && p != 2222) = true
        ∧ p ∈ List.map Prod.fst (allowed.foldl (allowedStep pm) σ1).instances) :=
      fun h => hc h.1
    rw [if_neg e1, allowedFold_get?, if_pos hmem]
    by_cases hr : routesFor pm p = []
    · rw [if_pos hr, if_neg (fun h => h.2 hr)]
    · rw [if_neg hr, if_pos ⟨hmem, hr⟩]
  · have e2 : ¬ (p ∈ allowed ∧ routesFor pm p ≠ []) := fun h => hmem h.1
    rw [if_neg e2]
    by_cases h : (!contains allowed p && p != 2222) = true
        ∧ p ∈ List.map Prod.fst (allowed.foldl (allowedStep pm) σ1).instances
    · rw [if_pos h]
    · rw [if_neg h, get?_eq_none_iff]
      intro kv hkv he
      exact h ⟨hcond.mpr hmem, List.mem_map.mpr ⟨kv, hkv, he⟩⟩

theorem reloadCycle_get? (ord : RangeOrder) (raw : RawConfig)
    (instances : GoMap Int ServerInstance) (p : Int) (hp : p ≠ 2222) :
    GoMap.get? (reloadCycle ord raw instances).instances p
      = if p ∈ raw.AllowedPorts ∧ reloadRoutes ord raw p ≠ [] then
          some (startServer p (reloadRoutes ord raw p))
        else none :=
  reconcile_get? (buildPortMap ord (loadRules raw).1) raw.AllowedPorts
    (tcpStep (buildTcpSubdomains (loadRules raw).1) { instances := instances, trace := [] }) p hp

theorem reloadCycle_stop (ord : RangeOrder) (raw : RawConfig)
    (instances : GoMap Int ServerInstance) (p : Int) (hp : p ≠ 2222) (inst : ServerInstance)
    (hg : GoMap.get? instances p = some inst) :
    Event.stopServer inst ∈ (reloadCycle ord raw instances).trace := by
  have hcond := cleanup_condition raw.AllowedPorts p hp
  have h1 : GoMap.get? (tcpStep (buildTcpSubdomains (loadRules raw).1)
      { instances := instances, trace := [] }).instances p = some inst := by
    rw [tcpStep_get? _ _ _ hp]
    exact hg
  show Event.stopServer inst ∈ (List.foldl (cleanupStep raw.AllowedPorts) _ _).trace
  by_cases hmem : p ∈ raw.AllowedPorts
  · apply cleanupFold_trace
    exact allowedFold_stop _ _ _ p inst hmem h1
  · apply cleanupFold_stop _ _ _ p inst _ (hcond.mpr hmem)
    apply get?_eq_some_mem
    rw [allowedFold_get?]
    have hmem2 : p ∉ (loadRules raw).2 := hmem
    rw [if_neg hmem2]
    exact h1

theorem reloadCycle_start (ord : RangeOrder) (raw : RawConfig)
    (instances : GoMap Int ServerInstance) (p : Int)
    (hmem : p ∈ raw.AllowedPorts) (hr : reloadRoutes ord raw p ≠ []) :
    Event.startServer (startServer p (reloadRoutes ord raw p))
      ∈ (reloadCycle ord raw instances).trace := by
  show _ ∈ (List.foldl (cleanupStep raw.AllowedPorts) _ _).trace
  apply cleanupFold_trace
  exact allowedFold_start _ _ _ p hmem hr

/-! ## Port buckets and the rule store (C4 to C7) -/

/-- C4, as the code has it: a loaded path, subdomain or domain rule is in the
route list built for port `port` exactly when its port field is `0` (absent),
is `-1` (the value the code uses for "no explicit port"), or equals `port`. -/
theorem C4_rule_in_port_list_iff (ord : RangeOrder) (raw : RawConfig) (port : Int)
    (kind key : String) (entry : RouteEntry)
    (hmem : (key, entry) ∈ rulesOfKind (loadRules raw).1 kind) :
    { Typ := kind, Key := key, Target := entry.Target : FullRoute } ∈ reloadRoutes ord raw port ↔
      (entry.Port = 0 ∨ entry.Port = -1 ∨ entry.Port = port) := by
  rw [mem_reloadRoutes]
  have hb : (bucket entry.Port = port ∨ bucket entry.Port = -1) ↔
      (entry.Port = 0 ∨ entry.Port = -1 ∨ entry.Port = port) := by
    unfold bucket
    split_ifs with h0
    · simp [h0]
    · constructor
      · rintro (h | h)
        · exact Or.inr (Or.inr h)
        · exact Or.inr (Or.inl h)
      · rintro (h | h | h)
        · exact absurd h h0
        · exact Or.inr h
        · exact Or.inl h
  constructor
  · rintro ⟨key2, entry2, hmem2, hr, hbucket⟩
    have hkey : key = key2 := by
      have := congrArg FullRoute.Key hr
      exact this
    subst hkey
    have hentry : entry = entry2 :=
      nodupKeys_mem_unique _ key entry entry2 (nodupKeys_rulesOfKind raw kind) hmem hmem2
    subst hentry
    exact hb.mp hbucket
  · intro h
    exact ⟨key, entry, hmem, rfl, hb.mpr h⟩

/-- C4 at a concrete rule: in the sample document the path rule `/y`, bound to
port 8080, is in the list of port 8080. -/
theorem C4_rule_in_port_list_iff_witness :
    ("/y", { Target := "http://y", Port := 8080 }) ∈ rulesOfKind (loadRules sampleConfig).1 "path" ∧
      ({ Typ := "path", Key := "/y", Target := "http://y" : FullRoute }
          ∈ reloadRoutes RangeOrder.listed sampleConfig 8080 ↔
        ((8080 : Int) = 0 ∨ (8080 : Int) = -1 ∨ (8080 : Int) = 8080)) :=
  ⟨by decide,
    C4_rule_in_port_list_iff RangeOrder.listed sampleConfig 8080 "path" "/y"
      { Target := "http://y", Port := 8080 } (by decide)⟩

/-- C4 fails as stated: a rule whose port field is the explicit value `-1`,
different from `0` and from the port `80`, is in the route list of port `80`. -/
theorem C4_counterexample_port_minus_one :
    ("/x", { Target := "http://t", Port := -1 })
        ∈ rulesOfKind
            (loadRules (pathOnlyConfig
              [("/x", JSON.obj [("target", JSON.str "http://t"), ("port", JSON.int (-1))])]
              [80])).1 "path" ∧
      (-1 : Int) ≠ 0 ∧ (-1 : Int) ≠ 80 ∧
      { Typ := "path", Key := "/x", Target := "http://t" : FullRoute }
        ∈ reloadRoutes RangeOrder.listed
            (pathOnlyConfig
              [("/x", JSON.obj [("target", JSON.str "http://t"), ("port", JSON.int (-1))])]
              [80]) 80 := by
  decide

/-- C5, what the code does: an entry written as a bare JSON string is dropped
by `loadRules` (decoding a string into `RouteEntry` is an error), whereas the
object form with the same target is loaded as `RouteEntry{Target: s, Port: 0}`
when `s` is non-empty. -/
theorem C5_bare_string_entry_is_dropped (k s : String) (allowedPorts : List Int) :
    (loadRules (pathOnlyConfig [(k, JSON.str s)] allowedPorts)).1.Path = [] ∧
      (loadRules (pathOnlyConfig [(k, JSON.obj [("target", JSON.str s)])] allowedPorts)).1.Path
        = if s = "" then [] else [(k, { Target := s, Port := 0 })] := by
  constructor
  · rfl
  · by_cases hs : s = ""
    · subst hs
      rfl
    · have hd : jsonUnmarshalRouteEntry (JSON.obj [("target", JSON.str s)])
          = some { Target := s, Port := 0 } := rfl
      simp [loadRules, pathOnlyConfig, parseAndAdd, hd, hs, GoMap.set]

/-- C6, as the code has it: with every section a well-formed map, the Path
and Subdomain mappings bind a key exactly to the valid entry its section has
for it (an entry that fails to decode or has an empty target binds nothing and
affects no other key); the Domain mapping binds nothing; the TCP mapping, which
receives both the `domain` and the `tcp` section, binds a key to the valid
entry of the `tcp` section, else to the valid entry of the `domain` section. -/
theorem C6_per_entry_tolerance (raw : RawConfig) (k : String)
    (hP : NodupKeys raw.Path) (hS : NodupKeys raw.Subdomain)
    (hD : NodupKeys raw.Domain) (hT : NodupKeys raw.TCP) :
    GoMap.get? (loadRules raw).1.Path k = validAt raw.Path k ∧
      GoMap.get? (loadRules raw).1.Subdomain k = validAt raw.Subdomain k ∧
      GoMap.get? (loadRules raw).1.Domain k = none ∧
      GoMap.get? (loadRules raw).1.TCP k
        = (match validAt raw.TCP k with
          | some entry => some entry
          | none => validAt raw.Domain k) := by
  refine ⟨?_, ?_, rfl, ?_⟩
  · show GoMap.get? (parseAndAdd raw.Path []) k = _
    rw [get?_parseAndAdd _ _ _ hP]
    cases validAt raw.Path k <;> rfl
  · show GoMap.get? (parseAndAdd raw.Subdomain []) k = _
    rw [get?_parseAndAdd _ _ _ hS]
    cases validAt raw.Subdomain k <;> rfl
  · show GoMap.get? (parseAndAdd raw.TCP (parseAndAdd raw.Domain [])) k = _
    rw [get?_parseAndAdd _ _ _ hT, get?_parseAndAdd _ _ _ hD]
    cases validAt raw.TCP k with
    | some entry => rfl
    | none => cases validAt raw.Domain k <;> rfl

/-- C6 on the sample document, at the key of its malformed path entry. -/
theorem C6_per_entry_tolerance_witness :
    NodupKeys sampleConfig.Path ∧
      GoMap.get? (loadRules sampleConfig).1.Path "/bad" = validAt sampleConfig.Path "/bad" ∧
      GoMap.get? (loadRules sampleConfig).1.Subdomain "/bad"
        = validAt sampleConfig.Subdomain "/bad" ∧
      GoMap.get? (loadRules sampleConfig).1.Domain "/bad" = none ∧
      GoMap.get? (loadRules sampleConfig).1.TCP "/bad"
        = (match validAt sampleConfig.TCP "/bad" with
          | some entry => some entry
          | none => validAt sampleConfig.Domain "/bad") :=
  ⟨by decide,
    C6_per_entry_tolerance sampleConfig "/bad" (by decide) (by decide) (by decide) (by decide)⟩

/-- C6 fails as stated: the entry of the `domain` section under `a.com` decodes
to a `RouteEntry` with a non-empty target, yet no loaded mapping binds `a.com`
to it: the Domain mapping is empty and the TCP mapping holds the entry of the
`tcp` section. -/
theorem C6_counterexample_domain_entry :
    validAt sampleConfig.Domain "a.com" = some { Target := "http://d", Port := 0 } ∧
      GoMap.get? (loadRules sampleConfig).1.Domain "a.com" = none ∧
      GoMap.get? (loadRules sampleConfig).1.TCP "a.com"
        = some { Target := "tcp://t", Port := 0 } := by
  decide

/-- C7: `loadRules` returns an empty Domain mapping and a TCP mapping that holds
the valid entries of the `domain` and of the `tcp` section, the `tcp` entry
winning on an equal key; no route of kind `domain` is in any port's route list,
and the route lists do not depend on the `domain` section at all. -/
theorem C7_domain_collapsed_into_tcp (raw : RawConfig)
    (hD : NodupKeys raw.Domain) (hT : NodupKeys raw.TCP) :
    (loadRules raw).1.Domain = [] ∧
      (∀ k : String, GoMap.get? (loadRules raw).1.TCP k
        = (match validAt raw.TCP k with
          | some entry => some entry
          | none => validAt raw.Domain k)) ∧
      (∀ (ord : RangeOrder) (port : Int) (r : FullRoute),
        r ∈ reloadRoutes ord raw port → r.Typ ≠ "domain") ∧
      (∀ (ord : RangeOrder) (port : Int) (domain : GoMap String JSON),
        reloadRoutes ord { raw with Domain := domain } port = reloadRoutes ord raw port) := by
  refine ⟨rfl, ?_, ?_, ?_⟩
  · intro k
    show GoMap.get? (parseAndAdd raw.TCP (parseAndAdd raw.Domain [])) k = _
    rw [get?_parseAndAdd _ _ _ hT, get?_parseAndAdd _ _ _ hD]
    cases validAt raw.TCP k with
    | some entry => rfl
    | none => cases validAt raw.Domain k <;> rfl
  · intro ord port r hr hdom
    rcases (mem_reloadRoutes ord raw port r).mp hr with ⟨key, entry, hmem, _, _⟩
    rw [hdom] at hmem
    have : rulesOfKind (loadRules raw).1 "domain" = [] := rfl
    rw [this] at hmem
    exact absurd hmem (List.not_mem_nil _)
  · intro ord port domain
    rfl

/-- C7 on the sample document, whose `domain` and `tcp` sections share a key. -/
theorem C7_domain_collapsed_into_tcp_witness :
    NodupKeys sampleConfig.Domain ∧ NodupKeys sampleConfig.TCP ∧
      ((loadRules sampleConfig).1.Domain = [] ∧
      (∀ k : String, GoMap.get? (loadRules sampleConfig).1.TCP k
        = (match validAt sampleConfig.TCP k with
          | some entry => some entry
          | none => validAt sampleConfig.Domain k)) ∧
      (∀ (ord : RangeOrder) (port : Int) (r : FullRoute),
        r ∈ reloadRoutes ord sampleConfig port → r.Typ ≠ "domain") ∧
      (∀ (ord : RangeOrder) (port : Int) (domain : GoMap String JSON),
        reloadRoutes ord { sampleConfig with Domain := domain } port
          = reloadRoutes ord sampleConfig port)) :=
  ⟨by decide, by decide, C7_domain_collapsed_into_tcp sampleConfig (by decide) (by decide)⟩

/-! ## Lemmas on the port lists -/

theorem mem_specLoadedRules (rules : ProxyRules) (kind key : String) (entry : RouteEntry) :
    (kind, key, entry) ∈ specLoadedRules rules ↔
      (kind = "path" ∧ (key, entry) ∈ rules.Path)
        ∨ (kind = "subdomain" ∧ (key, entry) ∈ rules.Subdomain)
        ∨ (kind = "domain" ∧ (key, entry) ∈ rules.Domain) := by
  unfold specLoadedRules
  simp only [List.mem_append, List.mem_map]
  constructor
  · rintro ((⟨kv, hkv, he⟩ | ⟨kv, hkv, he⟩) | ⟨kv, hkv, he⟩)
    · simp only [Prod.mk.injEq] at he
      obtain ⟨h1, h2, h3⟩ := he
      subst h1 h2 h3
      exact Or.inl ⟨rfl, hkv⟩
    · simp only [Prod.mk.injEq] at he
      obtain ⟨h1, h2, h3⟩ := he
      subst h1 h2 h3
      exact Or.inr (Or.inl ⟨rfl, hkv⟩)
    · simp only [Prod.mk.injEq] at he
      obtain ⟨h1, h2, h3⟩ := he
      subst h1 h2 h3
      exact Or.inr (Or.inr ⟨rfl, hkv⟩)
  · rintro (⟨h1, h⟩ | ⟨h1, h⟩ | ⟨h1, h⟩)
    · subst h1
      exact Or.inl (Or.inl ⟨(key, entry), h, rfl⟩)
    · subst h1
      exact Or.inl (Or.inr ⟨(key, entry), h, rfl⟩)
    · subst h1
      exact Or.inr ⟨(key, entry), h, rfl⟩

theorem mem_rulesOfKind_iff (rules : ProxyRules) (kind key : String) (entry : RouteEntry) :
    (key, entry) ∈ rulesOfKind rules kind ↔
      (kind = "path" ∧ (key, entry) ∈ rules.Path)
        ∨ (kind = "subdomain" ∧ (key, entry) ∈ rules.Subdomain)
        ∨ (kind = "domain" ∧ (key, entry) ∈ rules.Domain) := by
  unfold rulesOfKind
  by_cases hp : kind = "path"
  · subst hp
    simp
  · by_cases hs : kind = "subdomain"
    · subst hs
      simp
    · by_cases hd : kind = "domain"
      · subst hd
        simp
      · simp [hp, hs, hd]

theorem mem_specLoadedRules_kind (rules : ProxyRules) (kind key : String) (entry : RouteEntry) :
    (kind, key, entry) ∈ specLoadedRules rules ↔ (key, entry) ∈ rulesOfKind rules kind := by
  rw [mem_specLoadedRules, mem_rulesOfKind_iff]

theorem bucket_eq_iff (port b : Int) :
    b = bucket port ↔ ((port = b ∧ port ≠ 0) ∨ (port = 0 ∧ b = -1)) := by
  unfold bucket
  by_cases h0 : port = 0
  · simp [h0]
  · simp only [h0, if_false, ne_eq, not_false_eq_true, and_true, false_and, or_false]
    exact eq_comm

theorem bucket_minus_one_iff (port : Int) :
    (-1 : Int) = bucket port ↔ (port = 0 ∨ port = -1) := by
  rw [bucket_eq_iff]
  constructor
  · rintro (⟨h, _⟩ | ⟨h, _⟩)
    · exact Or.inr h
    · exact Or.inl h
  · rintro (h | h)
    · exact Or.inr ⟨h, rfl⟩
    · refine Or.inl ⟨h, ?_⟩
      rw [h]
      decide

theorem bucket_effective_iff (port p : Int) :
    (bucket port = p ∨ bucket port = -1) ↔ (port = p ∨ port = 0 ∨ port = -1) := by
  unfold bucket
  by_cases h0 : port = 0
  · simp [h0]
  · simp only [h0, if_false, false_or]

/-- The routes of a bucket of `portMap`, read off the loaded rules. -/
theorem mem_portRoutes_iff (ord : RangeOrder) (rules : ProxyRules) (b : Int) (r : FullRoute) :
    r ∈ portRoutes (buildPortMap ord rules) b ↔
      ∃ key entry, (key, entry) ∈ rulesOfKind rules r.Typ ∧
        r = { Typ := r.Typ, Key := key, Target := entry.Target } ∧ b = bucket entry.Port := by
  rw [portRoutes_buildPortMap, mem_bucketOf, mem_allTagged]

theorem mem_filter_route (rules : ProxyRules) (q : RouteEntry → Prop) [DecidablePred q]
    (r : FullRoute) :
    r ∈ ((specLoadedRules rules).filter (fun t => decide (q t.2.2))).map specRoute ↔
      ∃ key entry, (key, entry) ∈ rulesOfKind rules r.Typ ∧
        r = { Typ := r.Typ, Key := key, Target := entry.Target } ∧ q entry := by
  simp only [List.mem_map, List.mem_filter, decide_eq_true_eq]
  constructor
  · rintro ⟨⟨kind, key, entry⟩, ⟨hmem, hq⟩, hr⟩
    have hk : r.Typ = kind := by rw [← hr]; rfl
    refine ⟨key, entry, ?_, ?_, hq⟩
    · rw [hk]
      exact (mem_specLoadedRules_kind rules kind key entry).mp hmem
    · rw [hk, ← hr]
      rfl
  · rintro ⟨key, entry, hmem, hr, hq⟩
    refine ⟨(r.Typ, key, entry), ⟨(mem_specLoadedRules_kind rules r.Typ key entry).mpr hmem, hq⟩,
      ?_⟩
    exact hr.symm

theorem mem_specBoundRoutes (ord : RangeOrder) (rules : ProxyRules) (p : Int) (r : FullRoute) :
    r ∈ portRoutes (buildPortMap ord rules) p ↔ r ∈ specBoundRoutes rules p := by
  unfold specBoundRoutes
  rw [mem_portRoutes_iff,
    mem_filter_route rules (fun e => (e.Port = p ∧ e.Port ≠ 0) ∨ (e.Port = 0 ∧ p = -1)) r]
  simp only [bucket_eq_iff]

theorem mem_specAgnosticRoutes (ord : RangeOrder) (rules : ProxyRules) (r : FullRoute) :
    r ∈ portRoutes (buildPortMap ord rules) (-1) ↔ r ∈ specAgnosticRoutes rules := by
  unfold specAgnosticRoutes
  rw [mem_portRoutes_iff, mem_filter_route rules (fun e => e.Port = 0 ∨ e.Port = -1) r]
  simp only [bucket_minus_one_iff]

theorem mem_reloadRoutes_spec (ord : RangeOrder) (raw : RawConfig) (p : Int) (r : FullRoute) :
    r ∈ reloadRoutes ord raw p ↔
      ∃ t ∈ specEffectiveRules (loadRules raw).1 p, r = specRoute t := by
  have h := mem_filter_route (loadRules raw).1
    (fun e => e.Port = p ∨ e.Port = 0 ∨ e.Port = -1) r
  simp only [List.mem_map] at h
  rw [mem_reloadRoutes]
  simp only [bucket_effective_iff]
  rw [← h]
  unfold specEffectiveRules
  constructor
  · rintro ⟨t, ht, hr⟩
    exact ⟨t, ht, hr.symm⟩
  · rintro ⟨t, ht, hr⟩
    exact ⟨t, ht, hr.symm⟩

theorem reloadRoutes_ne_nil_iff (ord : RangeOrder) (raw : RawConfig) (p : Int) :
    reloadRoutes ord raw p ≠ [] ↔ specEffectiveRules (loadRules raw).1 p ≠ [] := by
  constructor
  · intro h
    rcases List.exists_mem_of_ne_nil _ h with ⟨r, hr⟩
    rcases (mem_reloadRoutes_spec ord raw p r).mp hr with ⟨t, ht, _⟩
    exact List.ne_nil_of_mem ht
  · intro h
    rcases List.exists_mem_of_ne_nil _ h with ⟨t, ht⟩
    exact List.ne_nil_of_mem ((mem_reloadRoutes_spec ord raw p (specRoute t)).mpr ⟨t, ht, rfl⟩)

/-! ## Reconciliation of the listeners (C8, C9) -/

/-- C8, as the code has it: after a reload cycle, for every port `p` other
than 2222, the map has an instance for `p` exactly when `p` is an allowed port
and some loaded rule has the port field `p`, `0` (absent) or `-1`; the instance
that ran on `p` before the cycle has been stopped; an instance present for `p`
has port `p`, serves the HTTP handler over the route list computed in this
cycle and was started in this cycle; and that route list holds exactly the
routes of the loaded rules with port field `p`, `0` or `-1`. -/
theorem C8_http_ports_reconciled (ord : RangeOrder) (raw : RawConfig)
    (instances : GoMap Int ServerInstance) (p : Int) (hp : p ≠ 2222) :
    ((GoMap.get? (reloadCycle ord raw instances).instances p).isSome = true ↔
        (p ∈ raw.AllowedPorts ∧ specEffectiveRules (loadRules raw).1 p ≠ [])) ∧
      (∀ inst : ServerInstance, GoMap.get? instances p = some inst →
        Event.stopServer inst ∈ (reloadCycle ord raw instances).trace) ∧
      (∀ inst : ServerInstance,
        GoMap.get? (reloadCycle ord raw instances).instances p = some inst →
          inst.port = p ∧ inst.server = Listener.http (reloadRoutes ord raw p) ∧
            Event.startServer inst ∈ (reloadCycle ord raw instances).trace) ∧
      (∀ r : FullRoute, r ∈ reloadRoutes ord raw p ↔
        ∃ t ∈ specEffectiveRules (loadRules raw).1 p, r = specRoute t) := by
  have hget := reloadCycle_get? ord raw instances p hp
  refine ⟨?_, ?_, ?_, ?_⟩
  · rw [hget, ← reloadRoutes_ne_nil_iff ord raw p]
    by_cases h : p ∈ raw.AllowedPorts ∧ reloadRoutes ord raw p ≠ []
    · simp only [if_pos h, Option.isSome_some, true_iff]
      exact h
    · simp only [if_neg h, Option.isSome_none, Bool.false_eq_true, false_iff]
      exact h
  · intro inst hg
    exact reloadCycle_stop ord raw instances p hp inst hg
  · intro inst hinst
    rw [hget] at hinst
    by_cases h : p ∈ raw.AllowedPorts ∧ reloadRoutes ord raw p ≠ []
    · rw [if_pos h] at hinst
      have hi : startServer p (reloadRoutes ord raw p) = inst := Option.some.inj hinst
      rw [← hi]
      exact ⟨rfl, rfl, reloadCycle_start ord raw instances p h.1 h.2⟩
    · rw [if_neg h] at hinst
      exact absurd hinst (by simp)
  · intro r
    exact mem_reloadRoutes_spec ord raw p r

/-- C8 on the sample document, for port 80, from a map in which ports 80 and
9 were running: the old instance of port 80 is stopped and the new one serves
the two routes of the rules without a port. -/
theorem C8_http_ports_reconciled_witness :
    (80 : Int) ≠ 2222 ∧
      GoMap.get?
          (reloadCycle RangeOrder.listed sampleConfig
            [(80, startServer 80 []), (9, startServer 9 [])]).instances 80
        = some { port := 80,
                 server := Listener.http
                   [{ Typ := "path", Key := "/api", Target := "http://a" },
                    { Typ := "subdomain", Key := "git", Target := "tcp://127.0.0.1:9418" }] } ∧
      Event.stopServer (startServer 80 [])
        ∈ (reloadCycle RangeOrder.listed sampleConfig
            [(80, startServer 80 []), (9, startServer 9 [])]).trace :=
  ⟨by decide, by decide,
    (C8_http_ports_reconciled RangeOrder.listed sampleConfig
      [(80, startServer 80 []), (9, startServer 9 [])] 80 (by decide)).2.1
      (startServer 80 []) (by decide)⟩

/-- C8 fails as stated: the only rule has the explicit port `-1`, so port 80
has neither an explicit rule nor a rule without explicit port (port field `0`
or absent), yet after the reload the map has an instance for port 80. -/
theorem C8_counterexample_port_minus_one :
    (80 : Int) ≠ 2222 ∧ (80 : Int) ∈ minusOneConfig.AllowedPorts ∧
      specEffectiveStated (loadRules minusOneConfig).1 80 = [] ∧
      GoMap.get? (reloadCycle RangeOrder.listed minusOneConfig []).instances 80
        = some { port := 80,
                 server := Listener.http
                   [{ Typ := "path", Key := "/x", Target := "http://t" }] } := by
  decide

/-- C9, what the code does: when the loaded rule set has no `tcp://` subdomain
rule (here: no rule at all, port 80 allowed), a reload cycle leaves an instance
that was running on port 2222 in the map, as it was, and makes no call on any
listener: the instance is not stopped. -/
theorem C9_sniff_listener_survives_reload (ord : RangeOrder) (inst : ServerInstance) :
    buildTcpSubdomains (loadRules (pathOnlyConfig [] [80])).1 = [] ∧
      reloadCycle ord (pathOnlyConfig [] [80]) [(2222, inst)]
        = { instances := [(2222, inst)], trace := [] } := by
  refine ⟨rfl, ?_⟩
  have hr : routesFor (buildPortMap ord (loadRules (pathOnlyConfig [] [80])).1) 80 = [] := by
    apply List.eq_nil_iff_forall_not_mem.mpr
    intro r hmem
    rcases (mem_reloadRoutes ord (pathOnlyConfig [] [80]) 80 r).mp hmem with ⟨key, entry, h, _, _⟩
    have hnil : rulesOfKind (loadRules (pathOnlyConfig [] [80])).1 r.Typ = [] := by
      unfold rulesOfKind
      split_ifs <;> rfl
    rw [hnil] at h
    exact absurd h (List.not_mem_nil _)
  have h2 : allowedStep (buildPortMap ord (loadRules (pathOnlyConfig [] [80])).1)
      { instances := [(2222, inst)], trace := [] } 80
        = { instances := [(2222, inst)], trace := [] } := by
    rw [allowedStep_empty _ _ _ hr]
    rfl
  show List.foldl (cleanupStep [80])
      (List.foldl (allowedStep (buildPortMap ord (loadRules (pathOnlyConfig [] [80])).1))
        { instances := [(2222, inst)], trace := [] } [80])
      (List.foldl (allowedStep (buildPortMap ord (loadRules (pathOnlyConfig [] [80])).1))
        { instances := [(2222, inst)], trace := [] } [80]).instances = _
  simp only [List.foldl_cons, List.foldl_nil, h2]
  rfl

/-! ## Lemmas on routing across enumeration orders -/

theorem firstMatch_append (test : FullRoute → Bool) (l1 l2 : List FullRoute) :
    specFirstMatch test (l1 ++ l2)
      = match l1.find? test with
        | some r => specAction r
        | none => specFirstMatch test l2 := by
  unfold specFirstMatch
  rw [List.find?_append]
  cases l1.find? test <;> rfl

theorem firstMatch_congr_mem (test : FullRoute → Bool) (l1 l2 : List FullRoute)
    (hmem : ∀ r, r ∈ l1 ↔ r ∈ l2)
    (hagree : ∀ r1 ∈ l1, ∀ r2 ∈ l1, test r1 = true → test r2 = true →
      specAction r1 = specAction r2) :
    specFirstMatch test l1 = specFirstMatch test l2 := by
  unfold specFirstMatch
  cases h1 : l1.find? test with
  | none =>
    cases h2 : l2.find? test with
    | none => rfl
    | some r2 =>
      exfalso
      have hm := (hmem r2).mpr (List.mem_of_find?_eq_some h2)
      exact (List.find?_eq_none.mp h1) r2 hm (List.find?_some h2)
  | some r1 =>
    cases h2 : l2.find? test with
    | none =>
      exfalso
      have hm := (hmem r1).mp (List.mem_of_find?_eq_some h1)
      exact (List.find?_eq_none.mp h2) r1 hm (List.find?_some h1)
    | some r2 =>
      exact hagree r1 (List.mem_of_find?_eq_some h1) r2
        ((hmem r2).mpr (List.mem_of_find?_eq_some h2)) (List.find?_some h1) (List.find?_some h2)

theorem handler_reloadRoutes (ord : RangeOrder) (raw : RawConfig) (port : Int)
    (host path : String) :
    startServer_handler (reloadRoutes ord raw port) host path
      = match (portRoutes (buildPortMap ord (loadRules raw).1) port).find?
            (specKindTestDotted host path) with
        | some r => specAction r
        | none =>
          specFirstMatch (specKindTestDotted host path)
            (portRoutes (buildPortMap ord (loadRules raw).1) (-1)) := by
  rw [handler_eq_firstMatch]
  exact firstMatch_append _ _ _

theorem front_kinds (rules : ProxyRules) (kind key : String)
    (hk : kind = "path" ∨ kind = "subdomain" ∨ kind = "domain") :
    ∃ others, (RangeOrder.front kind key).kinds
        [("path", rules.Path), ("subdomain", rules.Subdomain), ("domain", rules.Domain)]
      = (kind, rulesOfKind rules kind) :: others := by
  rcases hk with h | h | h
  · subst h
    exact ⟨[("subdomain", rules.Subdomain), ("domain", rules.Domain)],
      by simp [RangeOrder.front, rulesOfKind, List.filter]⟩
  · subst h
    exact ⟨[("path", rules.Path), ("domain", rules.Domain)],
      by simp [RangeOrder.front, rulesOfKind, List.filter]⟩
  · subst h
    exact ⟨[("path", rules.Path), ("subdomain", rules.Subdomain)],
      by simp [RangeOrder.front, rulesOfKind, List.filter]⟩

theorem front_entries (m : GoMap String RouteEntry) (kind key kind2 : String)
    (entry : RouteEntry) (hnd : NodupKeys m) (hmem : (key, entry) ∈ m) :
    ∃ tl, (RangeOrder.front kind key).entries kind2 m = (key, entry) :: tl := by
  have hin : (key, entry) ∈ m.filter (fun kv => decide (kv.1 = key)) :=
    List.mem_filter.mpr ⟨hmem, by simp⟩
  cases hf : m.filter (fun kv => decide (kv.1 = key)) with
  | nil =>
    rw [hf] at hin
    exact absurd hin (List.not_mem_nil _)
  | cons a as =>
    have ha : a ∈ m.filter (fun kv => decide (kv.1 = key)) := by
      rw [hf]
      exact List.mem_cons_self _ _
    have ha2 := List.mem_filter.mp ha
    have hkey : a.1 = key := by simpa using ha2.2
    have hmem2 : (key, a.2) ∈ m := by
      rw [← hkey]
      exact ha2.1
    have hval : a.2 = entry := nodupKeys_mem_unique m key a.2 entry hnd hmem2 hmem
    have hae : a = (key, entry) := by
      rw [← hkey, ← hval]
    refine ⟨as ++ m.filter (fun kv => !decide (kv.1 = key)), ?_⟩
    show m.filter (fun kv => decide (kv.1 = key)) ++ _ = _
    rw [hf, hae]
    rfl

/-- With the enumeration order that visits a rule first, the rule's route
heads its bucket. -/
theorem front_head (raw : RawConfig) (kind key : String) (entry : RouteEntry)
    (hmem : (key, entry) ∈ rulesOfKind (loadRules raw).1 kind) :
    ∃ rest, portRoutes (buildPortMap (RangeOrder.front kind key) (loadRules raw).1)
        (bucket entry.Port)
      = { Typ := kind, Key := key, Target := entry.Target } :: rest := by
  have hk : kind = "path" ∨ kind = "subdomain" ∨ kind = "domain" := by
    rcases (mem_rulesOfKind_iff _ kind key entry).mp hmem with h | h | h
    · exact Or.inl h.1
    · exact Or.inr (Or.inl h.1)
    · exact Or.inr (Or.inr h.1)
  rcases front_kinds (loadRules raw).1 kind key hk with ⟨others, hko⟩
  rcases front_entries (rulesOfKind (loadRules raw).1 kind) kind key kind entry
    (nodupKeys_rulesOfKind raw kind) hmem with ⟨tl, htl⟩
  rw [portRoutes_buildPortMap]
  unfold allTagged
  rw [hko, List.flatMap_cons]
  simp only [htl, taggedRoutes, List.map_cons, List.cons_append]
  unfold bucketOf
  simp [List.filter_cons]

theorem front_wins_bound (raw : RawConfig) (port : Int) (host path : String) (r : FullRoute)
    (hr : r ∈ specBoundRoutes (loadRules raw).1 port)
    (ht : specKindTestDotted host path r = true) :
    startServer_handler (reloadRoutes (RangeOrder.front r.Typ r.Key) raw port) host path
      = specAction r := by
  rcases (mem_portRoutes_iff RangeOrder.listed _ port r).mp
    ((mem_specBoundRoutes RangeOrder.listed _ port r).mpr hr) with ⟨key, entry, hmem, hreq, hb⟩
  have hkey : r.Key = key := by rw [hreq]
  rcases front_head raw r.Typ key entry hmem with ⟨rest, hrest⟩
  rw [handler_reloadRoutes, hkey, hb, hrest, ← hreq, List.find?_cons, ht]

theorem front_wins_agnostic (raw : RawConfig) (port : Int) (host path : String) (r : FullRoute)
    (hnone : ∀ r2 ∈ specBoundRoutes (loadRules raw).1 port,
      specKindTestDotted host path r2 = false)
    (hr : r ∈ specAgnosticRoutes (loadRules raw).1)
    (ht : specKindTestDotted host path r = true) :
    startServer_handler (reloadRoutes (RangeOrder.front r.Typ r.Key) raw port) host path
      = specAction r := by
  rcases (mem_portRoutes_iff RangeOrder.listed _ (-1) r).mp
    ((mem_specAgnosticRoutes RangeOrder.listed _ r).mpr hr) with ⟨key, entry, hmem, hreq, hb⟩
  have hkey : r.Key = key := by rw [hreq]
  rcases front_head raw r.Typ key entry hmem with ⟨rest, hrest⟩
  have hfind : (portRoutes (buildPortMap (RangeOrder.front r.Typ r.Key) (loadRules raw).1)
      port).find? (specKindTestDotted host path) = none := by
    rw [List.find?_eq_none]
    intro r2 hr2
    have := hnone r2 ((mem_specBoundRoutes _ _ port r2).mp hr2)
    simp [this]
  rw [handler_reloadRoutes, hfind]
  simp only
  rw [hkey, hb, hrest, ← hreq]
  unfold specFirstMatch
  rw [List.find?_cons, ht]

theorem routing_same_of_agree (raw : RawConfig) (port : Int) (host path : String)
    (ord1 ord2 : RangeOrder)
    (hB : ∀ r1 ∈ specBoundRoutes (loadRules raw).1 port,
      ∀ r2 ∈ specBoundRoutes (loadRules raw).1 port,
      specKindTestDotted host path r1 = true → specKindTestDotted host path r2 = true →
      specAction r1 = specAction r2)
    (hA : (∀ r ∈ specBoundRoutes (loadRules raw).1 port,
        specKindTestDotted host path r = false) →
      ∀ r1 ∈ specAgnosticRoutes (loadRules raw).1,
      ∀ r2 ∈ specAgnosticRoutes (loadRules raw).1,
      specKindTestDotted host path r1 = true → specKindTestDotted host path r2 = true →
      specAction r1 = specAction r2) :
    startServer_handler (reloadRoutes ord1 raw port) host path
      = startServer_handler (reloadRoutes ord2 raw port) host path := by
  rw [handler_reloadRoutes, handler_reloadRoutes]
  have mB := fun ord r => mem_specBoundRoutes ord (loadRules raw).1 port r
  have mA := fun ord r => mem_specAgnosticRoutes ord (loadRules raw).1 r
  cases h1 : (portRoutes (buildPortMap ord1 (loadRules raw).1) port).find?
      (specKindTestDotted host path) with
  | none =>
    cases h2 : (portRoutes (buildPortMap ord2 (loadRules raw).1) port).find?
        (specKindTestDotted host path) with
    | none =>
      simp only
      have hnone : ∀ r ∈ specBoundRoutes (loadRules raw).1 port,
          specKindTestDotted host path r = false := by
        intro r hr
        have := (List.find?_eq_none.mp h1) r ((mB ord1 r).mpr hr)
        simpa using this
      apply firstMatch_congr_mem
      · intro r
        rw [mA ord1 r, mA ord2 r]
      · intro r1 hr1 r2 hr2 ht1 ht2
        exact hA hnone r1 ((mA ord1 r1).mp hr1) r2 ((mA ord1 r2).mp hr2) ht1 ht2
    | some r2 =>
      exfalso
      have hm := (mB ord1 r2).mpr ((mB ord2 r2).mp (List.mem_of_find?_eq_some h2))
      exact (List.find?_eq_none.mp h1) r2 hm (List.find?_some h2)
  | some r1 =>
    cases h2 : (portRoutes (buildPortMap ord2 (loadRules raw).1) port).find?
        (specKindTestDotted host path) with
    | none =>
      exfalso
      have hm := (mB ord2 r1).mpr ((mB ord1 r1).mp (List.mem_of_find?_eq_some h1))
      exact (List.find?_eq_none.mp h2) r1 hm (List.find?_some h1)
    | some r2 =>
      exact hB r1 ((mB ord1 r1).mp (List.mem_of_find?_eq_some h1)) r2
        ((mB ord2 r2).mp (List.mem_of_find?_eq_some h2)) (List.find?_some h1)
        (List.find?_some h2)

/-! ## Routing across reloads (C10) -/

/-- C10, as the code has it: two reloads of the same content build, for every
port, route lists that are rearrangements of one another, whatever the orders
in which the maps are enumerated; and a request is routed the same way under
all enumeration orders exactly when (1) any two rules bound to the port that
match the request forward it the same way and (2) if no rule bound to the port
matches it, any two port-agnostic rules (port field `0`, absent or `-1`) that
match it forward it the same way.  A matching rule bound to the port always
wins over the port-agnostic ones. -/
theorem C10_routing_up_to_enumeration (raw : RawConfig) (port : Int) (host path : String) :
    (∀ ord1 ord2 : RangeOrder, (reloadRoutes ord1 raw port).Perm (reloadRoutes ord2 raw port)) ∧
      ((∀ ord1 ord2 : RangeOrder,
          startServer_handler (reloadRoutes ord1 raw port) host path
            = startServer_handler (reloadRoutes ord2 raw port) host path) ↔
        ((∀ r1 ∈ specBoundRoutes (loadRules raw).1 port,
            ∀ r2 ∈ specBoundRoutes (loadRules raw).1 port,
            startServer_handler [r1] host path ≠ Response.notFound →
            startServer_handler [r2] host path ≠ Response.notFound →
            startServer_handler [r1] host path = startServer_handler [r2] host path) ∧
          ((∀ r ∈ specBoundRoutes (loadRules raw).1 port,
              startServer_handler [r] host path = Response.notFound) →
            ∀ r1 ∈ specAgnosticRoutes (loadRules raw).1,
            ∀ r2 ∈ specAgnosticRoutes (loadRules raw).1,
            startServer_handler [r1] host path ≠ Response.notFound →
            startServer_handler [r2] host path ≠ Response.notFound →
            startServer_handler [r1] host path = startServer_handler [r2] host path))) := by
  have hact : ∀ r : FullRoute, specKindTestDotted host path r = true →
      startServer_handler [r] host path = specAction r := by
    intro r ht
    rw [handler_single, if_pos ht]
  have hne : ∀ r : FullRoute, specKindTestDotted host path r = true →
      startServer_handler [r] host path ≠ Response.notFound :=
    fun r ht => (handler_single_ne_notFound r host path).mpr ht
  have hoff : ∀ r : FullRoute, startServer_handler [r] host path = Response.notFound →
      specKindTestDotted host path r = false := by
    intro r h
    cases ht : specKindTestDotted host path r with
    | false => rfl
    | true => exact absurd h (hne r ht)
  have hon : ∀ r : FullRoute, specKindTestDotted host path r = false →
      startServer_handler [r] host path = Response.notFound := by
    intro r ht
    rw [handler_single, ht]
    rfl
  refine ⟨fun ord1 ord2 => reloadRoutes_perm ord1 ord2 raw port, ?_, ?_⟩
  · intro hall
    constructor
    · intro r1 hr1 r2 hr2 hm1 hm2
      have ht1 := (handler_single_ne_notFound r1 host path).mp hm1
      have ht2 := (handler_single_ne_notFound r2 host path).mp hm2
      have h := hall (RangeOrder.front r1.Typ r1.Key) (RangeOrder.front r2.Typ r2.Key)
      rw [front_wins_bound raw port host path r1 hr1 ht1,
        front_wins_bound raw port host path r2 hr2 ht2] at h
      rw [hact r1 ht1, hact r2 ht2]
      exact h
    · intro hnone r1 hr1 r2 hr2 hm1 hm2
      have ht1 := (handler_single_ne_notFound r1 host path).mp hm1
      have ht2 := (handler_single_ne_notFound r2 host path).mp hm2
      have hnone2 : ∀ r ∈ specBoundRoutes (loadRules raw).1 port,
          specKindTestDotted host path r = false := fun r hr => hoff r (hnone r hr)
      have h := hall (RangeOrder.front r1.Typ r1.Key) (RangeOrder.front r2.Typ r2.Key)
      rw [front_wins_agnostic raw port host path r1 hnone2 hr1 ht1,
        front_wins_agnostic raw port host path r2 hnone2 hr2 ht2] at h
      rw [hact r1 ht1, hact r2 ht2]
      exact h
  · rintro ⟨hB, hA⟩ ord1 ord2
    apply routing_same_of_agree raw port host path ord1 ord2
    · intro r1 hr1 r2 hr2 ht1 ht2
      have h := hB r1 hr1 r2 hr2 (hne r1 ht1) (hne r2 ht2)
      rw [hact r1 ht1, hact r2 ht2] at h
      exact h
    · intro hnone r1 hr1 r2 hr2 ht1 ht2
      have h := hA (fun r hr => hon r (hnone r hr)) r1 hr1 r2 hr2 (hne r1 ht1) (hne r2 ht2)
      rw [hact r1 ht1, hact r2 ht2] at h
      exact h

/-- C10 at a document with the path rule `/a` bound to port 80 and the
port-agnostic path rule `/ab`: both match the path `/abc` with different
targets, and the request is routed the same way under the listed and the
reverse enumeration order (the bound rule wins). -/
theorem C10_routing_up_to_enumeration_witness :
    startServer_handler (reloadRoutes RangeOrder.listed boundConfig 80) "example.com" "/abc"
        = startServer_handler (reloadRoutes RangeOrder.reversed boundConfig 80)
            "example.com" "/abc" ∧
      startServer_handler (reloadRoutes RangeOrder.listed boundConfig 80) "example.com" "/abc"
        = Response.proxyTo "http://one" "/a" :=
  ⟨(C10_routing_up_to_enumeration boundConfig 80 "example.com" "/abc").2.mpr
      ⟨by decide, by decide⟩ RangeOrder.listed RangeOrder.reversed,
    by decide⟩

/-- C10 fails as stated: for one and the same content (path rules `/a` and
`/ab`, port 80) two enumeration orders of the path mapping send the request
path `/abc` to different targets. -/
theorem C10_counterexample_overlapping_prefixes :
    startServer_handler (reloadRoutes RangeOrder.listed overlapConfig 80) "example.com" "/abc"
        = Response.proxyTo "http://two" "/ab" ∧
      startServer_handler (reloadRoutes RangeOrder.reversed overlapConfig 80) "example.com" "/abc"
        = Response.proxyTo "http://one" "/a" := by
  decide

/-! ## Lemmas on the TCP sniffer -/

theorem modifyHead_nil_append (l : List (List Char)) :
    l.modifyHead (fun x => ([] : List Char).reverse ++ x) = l := by
  cases l <;> simp [List.modifyHead]

theorem scanLinesAux_spec (cs acc : List Char) :
    ((List.splitOn '\n' cs).modifyHead (fun x => acc.reverse ++ x)).map dropCR
        = scanLinesAux cs acc ∨
      ((List.splitOn '\n' cs).modifyHead (fun x => acc.reverse ++ x)).map dropCR
        = scanLinesAux cs acc ++ [[]] := by
  induction cs generalizing acc with
  | nil =>
    by_cases h : acc = []
    · right
      subst h
      simp [scanLinesAux, dropCR, List.modifyHead]
    · left
      simp [scanLinesAux, h, List.modifyHead]
  | cons c cs ih =>
    simp only [List.splitOn] at ih ⊢
    rw [List.splitOnP_cons]
    by_cases hc : c = '\n'
    · subst hc
      have h0 := ih []
      rw [modifyHead_nil_append] at h0
      simp only [beq_self_eq_true, if_true, List.modifyHead, List.append_nil, List.map_cons,
        scanLinesAux]
      rcases h0 with h0 | h0
      · left
        rw [h0]
      · right
        rw [h0]
        rfl
    · have hc2 : (c == '\n') = false := by simpa using hc
      have h1 := ih (c :: acc)
      have hf : (fun x => (c :: acc).reverse ++ x) = (fun x => acc.reverse ++ x) ∘ (List.cons c) := by
        funext x
        simp
      rw [hf] at h1
      simp only [hc2, Bool.false_eq_true, if_false, List.modifyHead_modifyHead, scanLinesAux, hc]
      exact h1

theorem takeWhile_append_stop {α : Type} (p : α → Bool) (l : List α) (x : α)
    (hx : p x = false) : (l ++ [x]).takeWhile p = l.takeWhile p := by
  induction l with
  | nil => simp [List.takeWhile, hx]
  | cons a as ih =>
    by_cases ha : p a = true
    · simp [List.takeWhile_cons, ha, ih]
    · simp [List.takeWhile_cons, ha]

theorem headerLines_scanLines (b : String) :
    (scanLines b).takeWhile (fun line => line != "") = specHeaderLines b := by
  unfold specHeaderLines specLines scanLines
  have h := scanLinesAux_spec b.data []
  rw [modifyHead_nil_append] at h
  have hmap : ∀ l : List (List Char),
      l.map (fun piece => String.mk (dropCR piece)) = (l.map dropCR).map String.mk := by
    intro l
    simp
  rw [hmap]
  rcases h with h | h
  · rw [h]
  · rw [h, List.map_append]
    exact (takeWhile_append_stop _ _ _ (by decide)).symm

theorem hostValue_eq (line : String) (h : HasPrefix line "Host:" = true) :
    TrimSpace (TrimPrefix line "Host:") = specHostValue line := by
  unfold TrimPrefix specHostValue
  rw [if_pos h]
  rfl

theorem scanForHost_spec (lines : List String) :
    scanForHost lines
      = match (lines.takeWhile (fun line => line != "")).find? specIsHostLine with
        | some line => specHostValue line
        | none => "" := by
  induction lines with
  | nil => rfl
  | cons line rest ih =>
    unfold scanForHost
    by_cases hh : HasPrefix line "Host:" = true
    · have hne : (line != "") = true := by
        have : line ≠ "" := by
          intro e
          rw [e] at hh
          exact absurd hh (by decide)
        simpa using this
      have hs : specIsHostLine line = true := hh
      rw [if_pos hh, List.takeWhile_cons]
      simp only [hne, if_true, List.find?_cons, hs]
      exact hostValue_eq line hh
    · have hs : specIsHostLine line = false := by
        have : ¬ specIsHostLine line = true := hh
        simpa using this
      rw [if_neg hh]
      by_cases he : line = ""
      · have hne : (line != "") = false := by simp [he]
        rw [if_pos he, List.takeWhile_cons]
        simp only [hne, Bool.false_eq_true, if_false, List.find?_nil]
      · have hne : (line != "") = true := by simpa using he
        rw [if_neg he, List.takeWhile_cons, ih]
        simp only [hne, if_true, List.find?_cons, hs]

theorem splitNAux_two_head (cs acc : List Char) :
    (splitNAux '.' 2 cs acc).head? = some (acc.reverse ++ cs.takeWhile (fun c => c != '.')) := by
  induction cs generalizing acc with
  | nil => simp [splitNAux]
  | cons c cs ih =>
    by_cases hc : c = '.'
    · subst hc
      simp [splitNAux, List.takeWhile]
    · have hc2 : (c != '.') = true := by simpa using hc
      simp [splitNAux, hc, List.takeWhile, hc2, ih]

theorem splitN_first_label (host : String) :
    (SplitN host '.' 2).headD "" = specFirstLabel host := by
  unfold SplitN specFirstLabel
  have h := splitNAux_two_head host.data []
  cases hs : splitNAux '.' 2 host.data [] with
  | nil => rw [hs] at h; simp at h
  | cons a as =>
    rw [hs] at h
    simp at h
    simp [h]

theorem extractHostname_spec (b : String) :
    extractHostnameFromData b
      = if specIsRequest b = true then
          (match (specHeaderLines b).find? specIsHostLine with
            | some line => specHostValue line
            | none => "")
        else "" := by
  unfold extractHostnameFromData
  have hreq : (HasPrefix b "GET " || HasPrefix b "POST ") = specIsRequest b := rfl
  rw [hreq, scanForHost_spec, headerLines_scanLines]

theorem handle_eq_spec (dialOk : String → Bool) (b : String) (S : GoMap String String) :
    handleTCPWithSubdomain dialOk (some b) S
      = match specDialAddr b S with
        | some addr =>
          if dialOk addr = true then
            [ConnEvent.dial addr, ConnEvent.write b, ConnEvent.copyBothWays,
              ConnEvent.closeClient]
          else [ConnEvent.dial addr, ConnEvent.closeClient]
        | none => [ConnEvent.closeClient] := by
  have hx := extractHostname_spec b
  unfold handleTCPWithSubdomain specDialAddr
  by_cases hreq : specIsRequest b = true
  · rw [if_pos hreq] at hx
    cases hf : (specHeaderLines b).find? specIsHostLine with
    | none =>
      rw [hf] at hx
      simp only [hx, hreq, if_true]
    | some line =>
      rw [hf] at hx
      simp only at hx
      by_cases hv : specHostValue line = ""
      · have hx2 : extractHostnameFromData b = "" := hx.trans hv
        simp only [hx2, hreq, hv, if_true]
      · have hx3 : ¬ extractHostnameFromData b = "" := fun e => hv (hx.symm.trans e)
        simp only [hx3, hreq, hv, if_true, if_false]
        rw [hx, splitN_first_label]
        cases GoMap.get? S (specFirstLabel (specHostValue line)) <;> rfl
  · rw [if_neg hreq] at hx
    rw [if_neg hreq]
    simp only [hx, if_true]

/-! ## Lemmas on the listening sockets -/

theorem allowedStep_trace_append (pm : GoMap Int (List FullRoute)) (σ : State) (port : Int) :
    ∃ more, (allowedStep pm σ port).trace = σ.trace ++ more := by
  by_cases hr : routesFor pm port = []
  · rw [allowedStep_empty pm σ port hr]
    cases GoMap.get? σ.instances port with
    | none => exact ⟨[], by simp⟩
    | some inst => exact ⟨[Event.stopServer inst], rfl⟩
  · rw [allowedStep_nonempty pm σ port hr]
    cases GoMap.get? σ.instances port with
    | none => exact ⟨_, rfl⟩
    | some inst => exact ⟨_, List.append_assoc _ _ _⟩

theorem allowedFold_trace_append (pm : GoMap Int (List FullRoute)) (ports : List Int)
    (σ : State) : ∃ more, (ports.foldl (allowedStep pm) σ).trace = σ.trace ++ more := by
  induction ports generalizing σ with
  | nil => exact ⟨[], by simp⟩
  | cons q qs ih =>
    rw [List.foldl_cons]
    rcases ih (allowedStep pm σ q) with ⟨m2, h2⟩
    rcases allowedStep_trace_append pm σ q with ⟨m1, h1⟩
    exact ⟨m1 ++ m2, by rw [h2, h1, List.append_assoc]⟩

theorem cleanupFold_trace_append (allowed : List Int) (l : List (Int × ServerInstance))
    (σ : State) : ∃ more, (l.foldl (cleanupStep allowed) σ).trace = σ.trace ++ more := by
  induction l generalizing σ with
  | nil => exact ⟨[], by simp⟩
  | cons a as ih =>
    rw [List.foldl_cons]
    rcases ih (cleanupStep allowed σ a) with ⟨m2, h2⟩
    have h1 : ∃ m1, (cleanupStep allowed σ a).trace = σ.trace ++ m1 := by
      unfold cleanupStep
      split_ifs
      · exact ⟨[Event.stopServer a.2], rfl⟩
      · exact ⟨[], by simp⟩
    rcases h1 with ⟨m1, h1⟩
    exact ⟨m1 ++ m2, by rw [h2, h1, List.append_assoc]⟩

theorem runTrace_append_none (t more : List Event) (bound : List Int)
    (h : runTrace t bound = none) : runTrace (t ++ more) bound = none := by
  induction t generalizing bound with
  | nil => simp [runTrace] at h
  | cons e rest ih =>
    rw [List.cons_append]
    unfold runTrace at h ⊢
    cases ha : applyEvent bound e with
    | none => rfl
    | some bound1 =>
      rw [ha] at h
      exact ih bound1 h

/-- A reload that has a `tcp://` subdomain rule, made while port 2222 is held
by a `startTCPServer` instance, ends in a bind failure. -/
theorem tcp_restart_bind_failure (ord : RangeOrder) (raw : RawConfig)
    (instances : GoMap Int ServerInstance) (inst : ServerInstance) (bound : List Int)
    (hrules : buildTcpSubdomains (loadRules raw).1 ≠ [])
    (hinst : GoMap.get? instances 2222 = some inst)
    (hkeep : releasesSocket inst = false) (hbound : (2222 : Int) ∈ bound) :
    runTrace (reloadCycle ord raw instances).trace bound = none := by
  have hlen : (buildTcpSubdomains (loadRules raw).1).length > 0 :=
    List.length_pos.mpr hrules
  have h1 : (tcpStep (buildTcpSubdomains (loadRules raw).1)
      { instances := instances, trace := [] }).trace
        = [Event.stopServer inst,
            Event.startTCPServer (startTCPServer 2222 (buildTcpSubdomains (loadRules raw).1))] := by
    unfold tcpStep
    simp only [hlen, if_true, hinst, stopServer, List.nil_append, List.singleton_append]
  rcases allowedFold_trace_append (buildPortMap ord (loadRules raw).1) (loadRules raw).2
    (tcpStep (buildTcpSubdomains (loadRules raw).1) { instances := instances, trace := [] })
    with ⟨m1, hm1⟩
  rcases cleanupFold_trace_append (loadRules raw).2
    (List.foldl (allowedStep (buildPortMap ord (loadRules raw).1))
      (tcpStep (buildTcpSubdomains (loadRules raw).1) { instances := instances, trace := [] })
      (loadRules raw).2).instances
    (List.foldl (allowedStep (buildPortMap ord (loadRules raw).1))
      (tcpStep (buildTcpSubdomains (loadRules raw).1) { instances := instances, trace := [] })
      (loadRules raw).2) with ⟨m2, hm2⟩
  have htrace : (reloadCycle ord raw instances).trace
      = [Event.stopServer inst,
          Event.startTCPServer (startTCPServer 2222 (buildTcpSubdomains (loadRules raw).1))]
        ++ (m1 ++ m2) := by
    show (List.foldl (cleanupStep (loadRules raw).2) _ _).trace = _
    rw [hm2, hm1, h1, List.append_assoc]
  rw [htrace]
  apply runTrace_append_none
  simp [runTrace, applyEvent, hkeep, startTCPServer, hbound]

/-! ## TCP Host sniffing (C11) -/

/-- C11, as the code has it: with the first line beginning with `Host:` before
the first empty line deciding, a backend is dialled exactly when the buffer
begins with `GET ` or `POST `, that line exists, its trimmed value is non-empty
and the part of the value before the first `.` is a key of the table; the
address is the target of that key without its `tcp://` prefix, and once the
dial succeeds the first write to the backend is the whole buffer.  In every
other case the connection is closed with nothing dialled. -/
theorem C11_sniff_first_host_line (dialOk : String → Bool) (b : String)
    (S : GoMap String String) :
    handleTCPWithSubdomain dialOk (some b) S
        = (match specDialAddr b S with
          | some addr =>
            if dialOk addr = true then
              [ConnEvent.dial addr, ConnEvent.write b, ConnEvent.copyBothWays,
                ConnEvent.closeClient]
            else [ConnEvent.dial addr, ConnEvent.closeClient]
          | none => [ConnEvent.closeClient]) ∧
      ((∃ addr, ConnEvent.dial addr ∈ handleTCPWithSubdomain dialOk (some b) S) ↔
        (specDialAddr b S).isSome = true) ∧
      specDialAddr sniffRequest sniffTable = some "127.0.0.1:9418" := by
  have h := handle_eq_spec dialOk b S
  refine ⟨h, ?_, by decide⟩
  rw [h]
  cases specDialAddr b S with
  | none => simp
  | some addr =>
    by_cases hd : dialOk addr = true
    · simp [hd]
    · simp [hd]

/-- C11 fails as stated: in a request with two `Host:` lines the second one
has a non-empty value whose first label `git` is a key of the table, so a line
as the claim describes it occurs before the first empty line; yet the value of
the first `Host:` line decides, `www` is no key, and nothing is dialled. -/
theorem C11_counterexample_two_host_lines :
    specDialCondition twoHostRequest sniffTable = true ∧
      handleTCPWithSubdomain (fun _ => true) (some twoHostRequest) sniffTable
        = [ConnEvent.closeClient] := by
  decide

/-! ## Stop before start and the listening sockets (C12) -/

/-- C12, what the code does: reloading a configuration that has a `tcp://`
subdomain rule a second time calls `stopServer` on the running 2222 instance
and then `startTCPServer`, but the stop does not release the socket, so the
start hits a bind failure; an HTTP port restarted the same way (stop, then
start, here port 80 of the document with two path rules) is released in
between and binds again. -/
theorem C12_tcp_restart_hits_bind_failure :
    runTrace (reloadCycle RangeOrder.listed sniffConfig []).trace [] = some [80, 2222] ∧
      (reloadCycle RangeOrder.listed sniffConfig
          (reloadCycle RangeOrder.listed sniffConfig []).instances).trace.take 2
        = [Event.stopServer (startTCPServer 2222 sniffTable),
            Event.startTCPServer (startTCPServer 2222 sniffTable)] ∧
      runTrace
          (reloadCycle RangeOrder.listed sniffConfig
            (reloadCycle RangeOrder.listed sniffConfig []).instances).trace
          [80, 2222] = none ∧
      (reloadCycle RangeOrder.listed overlapConfig
          (reloadCycle RangeOrder.listed overlapConfig []).instances).trace.map
            (fun e => match e with
              | Event.stopServer inst => (0, inst.port)
              | Event.startServer inst => (1, inst.port)
              | Event.startTCPServer inst => (2, inst.port))
        = [((0 : Nat), (80 : Int)), (1, 80)] ∧
      runTrace
          (reloadCycle RangeOrder.listed overlapConfig
            (reloadCycle RangeOrder.listed overlapConfig []).instances).trace
          [80] = some [80] := by
  decide

end ProxSize
